import Mathlib

/-!
Shallow embedding of the `safe_printf` static analyzer (src/lex.rs, src/parse.rs,
src/ir.rs, src/error.rs).  Source text is modelled as `List Char` and byte spans
as pairs of character indices (all inputs of interest are ASCII, where the two
coincide).  All tokenizers and loops are fuel-based with the fuel chosen so that
it is never exhausted on real input (each step consumes at least one character);
fuel-exhaustion branches return the same value as the natural end-of-input
branch.  Rust field `end` is called `stop` here (`end` is a Lean keyword).

One reconciliation note: src/ir.rs pattern-matches `SourceToken::Identifier("printf")`
while src/lex.rs defines dedicated `Printf`/`Sprintf`/`Snprintf` tokens (and no
`Identifier` variant); the two files cannot both be current.  This embedding
follows src/lex.rs for the token type and reads the ir.rs branches as matching
those dedicated tokens, which is the only reading under which both files fit
together; the behavior matched against the claims (recognize the tracked name,
then peek for `(`) is the same under either reading.
-/

namespace SafePrintf

/-- A half-open byte range `start..stop` into the source (Rust `Range<usize>`). -/
structure Span where
  start : Nat
  stop : Nat
deriving DecidableEq, Repr

/-- `CType` from src/ir.rs: the C types that can be formatted. -/
inductive CType where
  | int
  | float
  | string
deriving DecidableEq, Repr

/-- `Display` for `CType` (displaydoc): `int`, `float`, `char*`. -/
def CType.display : CType → List Char
  | .int => "int".data
  | .float => "float".data
  | .string => "char*".data

/-- `CType::specifier_char` from src/ir.rs. -/
def CType.specifier_char : CType → Char
  | .int => 'd'
  | .float => 'f'
  | .string => 's'

/-- `CType::format_fn` from src/ir.rs. -/
def CType.format_fn : CType → List Char
  | .int => "fmt_int".data
  | .float => "fmt_float".data
  | .string => "fmt_string".data

/-- The slice `src[a..b]` of the source text. -/
def slice (src : List Char) (a b : Nat) : List Char :=
  (src.drop a).take (b - a)

/-- Decimal representation of a number, as rendered by `Display for usize`. -/
def natChars (n : Nat) : List Char :=
  (Nat.repr n).data

/-- The whitespace class `[ \t\v\r\n\f]` used by all three lexers. -/
def isWsChar (c : Char) : Bool :=
  c == ' ' || c == '\t' || c == '\x0b' || c == '\r' || c == '\n' || c == '\x0c'

/-- Advance `pos` over characters satisfying `p` (fuelled). -/
def scanWhile (src : List Char) (p : Char → Bool) : Nat → Nat → Nat
  | pos, 0 => pos
  | pos, fuel+1 =>
    match src.get? pos with
    | some c => if p c then scanWhile src p (pos+1) fuel else pos
    | none => pos

/-- Advance over characters satisfying `p`, with always-sufficient fuel. -/
def scanW (src : List Char) (p : Char → Bool) (pos : Nat) : Nat :=
  scanWhile src p pos (src.length + 1)

/-- Does the literal `s` occur in `src` at position `pos`? -/
def matchLit (s : String) (src : List Char) (pos : Nat) : Bool :=
  s.data.isPrefixOf (src.drop pos)

/-- The single characters allowed directly after a backslash in the escape
sequence subpattern `es` of src/lex.rs. -/
def escChars : List Char :=
  ['\'', '"', '%', '?', '\\', 'a', 'b', 'e', 'f', 'n', 'r', 't', 'v']

def isOctal (c : Char) : Bool :=
  '0' ≤ c && c ≤ '7'

def isHex (c : Char) : Bool :=
  c.isDigit || ('a' ≤ c && c ≤ 'f') || ('A' ≤ c && c ≤ 'F')

/-- Match one escape sequence body (the part after the backslash), subpattern
`es = [\\](['"%?\\abefnrtv]|[0-7]+|[xu][a-fA-F0-9]+|[\r]?[\n])`.
Returns the position after the escape. `pos` points at the character following
the backslash. -/
def escLen (src : List Char) (pos : Nat) : Option Nat :=
  match src.get? pos with
  | none => none
  | some c =>
    if escChars.contains c then some (pos+1)
    else if isOctal c then some (scanW src isOctal pos)
    else if c == 'x' || c == 'u' then
      let e := scanW src isHex (pos+1)
      if pos + 1 < e then some e else none
    else if c == '\r' then
      match src.get? (pos+1) with
      | some '\n' => some (pos+2)
      | _ => none
    else if c == '\n' then some (pos+1)
    else none

/-- Match the body of a string literal after the opening quote: characters
`[^"\\\n]` or escapes, then the closing quote.  Returns the position after the
closing quote. -/
def strBody (src : List Char) : Nat → Nat → Option Nat
  | _, 0 => none
  | pos, fuel+1 =>
    match src.get? pos with
    | none => none
    | some c =>
      if c == '"' then some (pos+1)
      else if c == '\n' then none
      else if c == '\\' then
        match escLen src (pos+1) with
        | some p' => strBody src p' fuel
        | none => none
      else strBody src (pos+1) fuel

/-- Match one string unit `(?&sp)?"..."` (optional prefix `u8|u|U|L`, then a
quoted body).  Returns the position after the closing quote. -/
def strUnit (src : List Char) (pos : Nat) : Option Nat :=
  match src.get? pos with
  | none => none
  | some c =>
    if c == '"' then strBody src (pos+1) (src.length + 1)
    else if c == 'u' && src.get? (pos+1) == some '8' && src.get? (pos+2) == some '"' then
      strBody src (pos+3) (src.length + 1)
    else if (c == 'u' || c == 'U' || c == 'L') && src.get? (pos+1) == some '"' then
      strBody src (pos+2) (src.length + 1)
    else none

/-- Extend a matched string unit with `(?&ws)*` and further adjacent units, per
the regex `((?&sp)?"..."(?&ws)*)+`.  `pos` is the end of a matched unit; the
result includes each unit's trailing whitespace run. -/
def strRunAux (src : List Char) : Nat → Nat → Nat
  | pos, 0 => pos
  | pos, fuel+1 =>
    let q := scanW src isWsChar pos
    match strUnit src q with
    | some e => strRunAux src e fuel
    | none => q

/-- Match a full string-literal token at `pos`; returns the end position. -/
def strMatch (src : List Char) (pos : Nat) : Option Nat :=
  (strUnit src pos).map (fun e => strRunAux src e (src.length + 1))

/-- `SourceToken` from src/lex.rs (whitespace is skipped, never emitted). -/
inductive SourceTok where
  | comment
  | string
  | lparen
  | rparen
  | printf
  | sprintf
  | snprintf
  | other
deriving DecidableEq, Repr

/-- Search for `*/` starting at `pos`; returns the position just after it
(`lex.remainder().find("*/")? + 2` in src/lex.rs). -/
def findStarSlash (src : List Char) : Nat → Nat → Option Nat
  | _, 0 => none
  | pos, fuel+1 =>
    match src.get? pos with
    | none => none
    | some c =>
      if c == '*' && src.get? (pos+1) == some '/' then some (pos+2)
      else findStarSlash src (pos+1) fuel

/-- One step of the source-level lexer: skip whitespace, then emit the
maximal-munch token at the current position.  Unmatched characters become
one-character `other` (error) tokens; an unterminated block comment yields an
error token covering just the `/*` (the callback in src/lex.rs returns `None`).
Returns the token, its span, and the resume position. -/
def srcNextTok (src : List Char) (pos : Nat) : Option (SourceTok × Span × Nat) :=
  let p := scanW src isWsChar pos
  match src.get? p with
  | none => none
  | some c =>
    if c == '/' && src.get? (p+1) == some '/' then
      let e := scanW src (fun ch => !(ch == '\r' || ch == '\n')) (p+2)
      some (.comment, ⟨p, e⟩, e)
    else if c == '/' && src.get? (p+1) == some '*' then
      match findStarSlash src (p+2) (src.length + 1) with
      | some e => some (.comment, ⟨p, e⟩, e)
      | none => some (.other, ⟨p, p+2⟩, p+2)
    else if c == '/' then some (.other, ⟨p, p+1⟩, p+1)
    else
      match strMatch src p with
      | some e => some (.string, ⟨p, e⟩, e)
      | none =>
        if c == '(' then some (.lparen, ⟨p, p+1⟩, p+1)
        else if c == ')' then some (.rparen, ⟨p, p+1⟩, p+1)
        else if matchLit "snprintf" src p then some (.snprintf, ⟨p, p+8⟩, p+8)
        else if matchLit "sprintf" src p then some (.sprintf, ⟨p, p+7⟩, p+7)
        else if matchLit "printf" src p then some (.printf, ⟨p, p+6⟩, p+6)
        else some (.other, ⟨p, p+1⟩, p+1)

/-- The stream of source tokens from `pos` (fuelled). -/
def srcTokensFrom (src : List Char) : Nat → Nat → List (SourceTok × Span)
  | _, 0 => []
  | pos, fuel+1 =>
    match srcNextTok src pos with
    | some (t, sp, pos') => (t, sp) :: srcTokensFrom src pos' fuel
    | none => []

/-- All source tokens of a file. -/
def srcTokens (src : List Char) : List (SourceTok × Span) :=
  srcTokensFrom src 0 (src.length + 1)

/-- `ArgToken` from src/lex.rs (whitespace is skipped, never emitted).
`string` carries the payload produced by `trim(lex.slice())`, i.e. the matched
slice minus its first and last character; `identifier` carries the matched
text; `typeCast` carries the resolved `CType`. -/
inductive ArgToken where
  | comment
  | symbol
  | lparen
  | rparen
  | comma
  | char
  | string (content : List Char)
  | int
  | float
  | typeCast (ctype : CType)
  | identifier (name : List Char)
  | unknown
deriving DecidableEq, Repr

def isIdentStart (c : Char) : Bool :=
  c.isAlpha || c == '_' || c == '$'

def isIdentChar (c : Char) : Bool :=
  isIdentStart c || c.isDigit

/-- Match a char literal `(?&cp)?'([^'\\\n]|(?&es))*'` at `pos`; returns the
end position. -/
def charBody (src : List Char) : Nat → Nat → Option Nat
  | _, 0 => none
  | pos, fuel+1 =>
    match src.get? pos with
    | none => none
    | some c =>
      if c == '\'' then some (pos+1)
      else if c == '\n' then none
      else if c == '\\' then
        match escLen src (pos+1) with
        | some p' => charBody src p' fuel
        | none => none
      else charBody src (pos+1) fuel

def charMatch (src : List Char) (pos : Nat) : Option Nat :=
  match src.get? pos with
  | none => none
  | some c =>
    if c == '\'' then charBody src (pos+1) (src.length + 1)
    else if (c == 'u' || c == 'U' || c == 'L') && src.get? (pos+1) == some '\'' then
      charBody src (pos+2) (src.length + 1)
    else none

/-- Length of the integer suffix
`(?&is) = ([uU]([lL]|ll|LL)?)|(([lL]|ll|LL)[uU]?)` at `pos`, maximal munch
(0 when no suffix matches). -/
def intSuffixLen (src : List Char) (pos : Nat) : Nat :=
  let longLen : Nat → Nat := fun q =>
    if matchLit "ll" src q || matchLit "LL" src q then 2
    else if src.get? q == some 'l' || src.get? q == some 'L' then 1
    else 0
  match src.get? pos with
  | some 'u' | some 'U' => 1 + longLen (pos+1)
  | some 'l' | some 'L' | _ =>
    let n := longLen pos
    if n == 0 then 0
    else
      match src.get? (pos+n) with
      | some 'u' | some 'U' => n + 1
      | _ => n

/-- End of the longest integer-literal match
`((?&hp)(?&h)+|(?&bp)(?&b)+|(?&nz)(?&d)*|0(?&o)*)(?&is)?` at `pos`,
or `none` when no match. -/
def intMatch (src : List Char) (pos : Nat) : Option Nat :=
  let body : Option Nat :=
    if matchLit "0x" src pos || matchLit "0X" src pos then
      let e := scanW src isHex (pos+2)
      if pos + 2 < e then some e else some (pos+1)
    else if matchLit "0b" src pos || matchLit "0B" src pos then
      let e := scanW src (fun c => c == '0' || c == '1') (pos+2)
      if pos + 2 < e then some e else some (pos+1)
    else
      match src.get? pos with
      | some c =>
        if c == '0' then some (scanW src isOctal pos)
        else if c.isDigit then some (scanW src Char.isDigit pos)
        else none
      | none => none
  body.map (fun e => e + intSuffixLen src e)

/-- End of an exponent `[eE][+-]?[0-9]+` (resp. `[pP][+-]?[0-9]+` when `hex`)
at `pos`, or `none`. -/
def expMatch (hex : Bool) (src : List Char) (pos : Nat) : Option Nat :=
  let okHead := if hex then src.get? pos == some 'p' || src.get? pos == some 'P'
                else src.get? pos == some 'e' || src.get? pos == some 'E'
  if okHead then
    let q := if src.get? (pos+1) == some '+' || src.get? (pos+1) == some '-'
             then pos + 2 else pos + 1
    let e := scanW src Char.isDigit q
    if q < e then some e else none
  else none

/-- Length-1 float suffix `[fFlL]` at `pos` (0 when absent). -/
def floatSuffixLen (src : List Char) (pos : Nat) : Nat :=
  match src.get? pos with
  | some 'f' | some 'F' | some 'l' | some 'L' => 1
  | _ => 0

/-- End of the longest float-literal match at `pos`, per the `Float` regex of
src/lex.rs: decimal forms `d+ e`, `d* . d+ e?`, `d+ . e?` and hex forms
`hp (h+ p | h* . h+ p | h+ . p)`, each followed by an optional `[fFlL]`
suffix. -/
def floatMatch (src : List Char) (pos : Nat) : Option Nat :=
  let body : Option Nat :=
    if matchLit "0x" src pos || matchLit "0X" src pos then
      let d1 := scanW src isHex (pos+2)
      if src.get? d1 == some '.' then
        let d2 := scanW src isHex (d1+1)
        if d1 + 1 < d2 then expMatch true src d2
        else if pos + 2 < d1 then expMatch true src d2
        else none
      else if pos + 2 < d1 then expMatch true src d1
      else none
    else
      let d1 := scanW src Char.isDigit pos
      if src.get? d1 == some '.' then
        let d2 := scanW src Char.isDigit (d1+1)
        if d1 + 1 < d2 then some ((expMatch false src d2).getD d2)
        else if pos < d1 then some ((expMatch false src d2).getD d2)
        else none
      else if pos < d1 then expMatch false src d1
      else none
  body.map (fun e => e + floatSuffixLen src e)

/-- The multi-character symbol tokens of the `Symbol` regexes, longest first. -/
def symbol3 : List String := ["...", ">>=", "<<="]

def symbol2 : List String :=
  [">>", "<<", "++", "--", "->", "&&", "||", "<=", ">=", "==", "!=",
   "<%", "%>", "<:", ":>",
   "+=", "-=", "*=", "/=", "%=", "&=", "^=", "|="]

def symbol1 : List Char := ";\x7b\x7d:=[].&!~-+*/%<>^|?\\#".data

/-- Longest symbol match at `pos` (0 when no symbol matches). -/
def symbolLen (src : List Char) (pos : Nat) : Nat :=
  if symbol3.any (fun s => matchLit s src pos) then 3
  else if symbol2.any (fun s => matchLit s src pos) then 2
  else
    match src.get? pos with
    | some c => if symbol1.contains c then 1 else 0
    | none => 0

/-- One step of the argument-level lexer (`ArgToken` grammar): skip whitespace,
then emit the maximal-munch token.  Conflicts are resolved by match length as
logos does: `(int)`/`(float)`/`(char*)` beat `(`; string/char literals beat
their one-letter prefix identifiers; float beats int beats symbol `.`;
comments beat `/` symbols.  Unmatched characters become one-character
`unknown` (error) tokens. -/
def argNextTok (src : List Char) (pos : Nat) : Option (ArgToken × Span × Nat) :=
  let p := scanW src isWsChar pos
  match src.get? p with
  | none => none
  | some c =>
    if c == '/' && src.get? (p+1) == some '/' then
      let e := scanW src (fun ch => !(ch == '\r' || ch == '\n')) (p+2)
      some (.comment, ⟨p, e⟩, e)
    else if c == '/' && src.get? (p+1) == some '*' then
      match findStarSlash src (p+2) (src.length + 1) with
      | some e => some (.comment, ⟨p, e⟩, e)
      | none => some (.unknown, ⟨p, p+2⟩, p+2)
    else if matchLit "(int)" src p then some (.typeCast .int, ⟨p, p+5⟩, p+5)
    else if matchLit "(float)" src p then some (.typeCast .float, ⟨p, p+7⟩, p+7)
    else if matchLit "(char*)" src p then some (.typeCast .string, ⟨p, p+7⟩, p+7)
    else if c == '(' then some (.lparen, ⟨p, p+1⟩, p+1)
    else if c == ')' then some (.rparen, ⟨p, p+1⟩, p+1)
    else if c == ',' then some (.comma, ⟨p, p+1⟩, p+1)
    else
      match strMatch src p with
      | some e => some (.string (slice src (p+1) (e-1)), ⟨p, e⟩, e)
      | none =>
        match charMatch src p with
        | some e => some (.char, ⟨p, e⟩, e)
        | none =>
          if isIdentStart c then
            let e := scanW src isIdentChar p
            some (.identifier (slice src p e), ⟨p, e⟩, e)
          else
            match floatMatch src p, intMatch src p with
            | some ef, some ei =>
              if ei < ef then some (.float, ⟨p, ef⟩, ef)
              else some (.int, ⟨p, ei⟩, ei)
            | some ef, none => some (.float, ⟨p, ef⟩, ef)
            | none, some ei => some (.int, ⟨p, ei⟩, ei)
            | none, none =>
              let n := symbolLen src p
              if 0 < n then some (.symbol, ⟨p, p+n⟩, p+n)
              else some (.unknown, ⟨p, p+1⟩, p+1)

/-- `Arg` from src/parse.rs: one argument of a call. -/
structure Arg where
  /-- The token, if there is exactly one (as counted by `Args::next`). -/
  single_token : Option ArgToken
  /-- Range in source code. -/
  span : Span
  /-- Type cast of the argument, if present. -/
  cast : Option (CType × Span)
deriving DecidableEq, Repr

/-- `Error` from src/error.rs (the diagnostic data model: discriminant, spans
and help text; terminal rendering is out of scope). -/
inductive Error where
  | missingFunctionArgs (span : Span)
  | nonliteralFormat (span : Span) (help : List Char)
  | specifierCastMismatch (specifier_span : Span) (specifier_ctype : CType)
      (cast_span : Span) (cast_ctype : CType)
  | excessSpecifiers (format_span : Span) (args_span : Span)
      (additional_specifiers : Nat)
  | excessArgs (format_span : Span) (args_span : Span) (additional_args : Nat)
deriving DecidableEq, Repr

/-- `Error::nonliteral` from src/error.rs: the help text names the identifier
when the argument was a single bare identifier, otherwise it is a generic
string-literal suggestion. -/
def Error.nonliteral (arg : Arg) : Error :=
  .nonliteralFormat arg.span
    (match arg.single_token with
     | some (.identifier ident) =>
       "To safely print a string, use `printf(\"%s\", ".data ++ ident ++
         ")` instead.".data
     | _ => "Use a string literal as the first argument, like `printf(\"hello\")`.".data)

/-- The mutable state of `Args` from src/parse.rs.  `pos` is the argument
lexer's position; `start`/`stop` are the fields `start`/`end`;
`hasRemaining` models `has_remaining`.  The source lexer's position is not
stored: `Args` bumps it only in the unmatched-`)` branch (exactly when
`has_remaining` is cleared), so the resume position is recovered by
`ArgsState.resume`. -/
structure ArgsState where
  pos : Nat
  hasRemaining : Bool
  start : Nat
  stop : Nat
deriving DecidableEq, Repr

/-- `Args::new`: `p` is `source_lex.span().end`, the position just after the
call's `(` token. -/
def ArgsState.new (p : Nat) : ArgsState :=
  ⟨p, true, p, p⟩

/-- The source-lexer position after `Args` is dropped: `Args::new` leaves the
source lexer at `start`, and the unmatched-`)` branch bumps it by
`end - start + 1`, i.e. to `end + 1`. -/
def ArgsState.resume (st : ArgsState) : Nat :=
  if st.hasRemaining then st.start else st.stop + 1

/-- Union of an optional span with another (`union` from src/parse.rs). -/
def unionSpan (s : Option Span) (other : Span) : Span :=
  match s with
  | some s => ⟨s.start, other.stop⟩
  | none => other

/-- The `loop` of `Args::next` from src/parse.rs, one iteration per argument
token.  State variables `cast`, `span`, `opened`, `single` (`single_token`)
and `count` are the loop locals.  A top-level comma or unmatched `)` ends the
argument; in both cases a `None` span (no content tokens) makes `next` return
`None` via the `span?` operator.  The unmatched-`)` branch records `end` and
clears `has_remaining` (which stands for the source-lexer bump) before the
`span?` check. -/
def argLoop (src : List Char) (cast : Option (CType × Span)) (span : Option Span)
    (opened : Nat) (single : Option ArgToken) (count : Nat) (st : ArgsState) :
    Nat → Option Arg × ArgsState
  | 0 => (none, st)
  | fuel+1 =>
    match argNextTok src st.pos with
    | none => (none, { st with pos := src.length })
    | some (tok, sp, pos') =>
      match tok, opened with
      | .comma, 0 =>
        (span.map fun s => ⟨single, s, cast⟩, { st with pos := pos' })
      | .lparen, _ =>
        argLoop src cast (some (unionSpan span sp)) (opened+1) single count
          { st with pos := pos', stop := sp.stop } fuel
      | .rparen, n+1 =>
        argLoop src cast (some (unionSpan span sp)) n single count
          { st with pos := pos', stop := sp.stop } fuel
      | .rparen, 0 =>
        (span.map fun s => ⟨single, s, cast⟩,
         { st with pos := pos', hasRemaining := false, stop := sp.start })
      | .typeCast ctype, _ =>
        if cast.isNone then
          argLoop src (some (ctype, sp)) (some (unionSpan span sp)) opened single count
            { st with pos := pos', stop := sp.stop } fuel
        else
          argLoop src cast (some (unionSpan span sp)) opened
            (if count == 0 then some tok else none) (count+1)
            { st with pos := pos', stop := sp.stop } fuel
      | _, _ =>
        argLoop src cast (some (unionSpan span sp)) opened
          (if count == 0 then some tok else none) (count+1)
          { st with pos := pos', stop := sp.stop } fuel

/-- `Args::next` from src/parse.rs. -/
def argsNext (src : List Char) (st : ArgsState) : Option Arg × ArgsState :=
  if st.hasRemaining then
    argLoop src none none 0 none 0 st (src.length + 1)
  else
    (none, st)

/-- The list of arguments yielded by repeated `Args::next` calls, up to the
first `None` (fuelled by the list length). -/
def argsStream (src : List Char) (st : ArgsState) : Nat → List Arg
  | 0 => []
  | n+1 =>
    match argsNext src st with
    | (some a, st') => a :: argsStream src st' n
    | (none, _) => []

/-- `Args::short_circuit`: drain the remaining arguments, returning their
number, the combined span `start..end`, and the final state. -/
def short_circuit (src : List Char) (st : ArgsState) : Nat → Nat × Span × ArgsState
  | 0 => (0, ⟨st.start, st.stop⟩, st)
  | fuel+1 =>
    match argsNext src st with
    | (some _, st') =>
      let (n, sp, stf) := short_circuit src st' fuel
      (n+1, sp, stf)
    | (none, st') => (0, ⟨st'.start, st'.stop⟩, st')

/-- `Args::next_format_string` from src/parse.rs. -/
def next_format_string (src : List Char) (st : ArgsState) :
    Except Error (List Char × Span) × ArgsState :=
  match argsNext src st with
  | (some arg, st') =>
    match arg.single_token with
    | some (.string content) => (.ok (content, arg.span), st')
    | _ => (.error (Error.nonliteral arg), st')
  | (none, st') => (.error (.missingFunctionArgs ⟨st'.start, st'.stop⟩), st')

/-- `Specifier` from src/parse.rs: option text (between `%` and the type
letter) and the resolved C type. -/
structure Specifier where
  options : List Char
  ctype : CType
deriving DecidableEq, Repr

/-- Match a format specifier at `pos` (which points at `%`), per the
`FormatToken` regexes `%(?&opts)?[di]` / `%(?&opts)?s` / `%(?&opts)?f` with
`opts = [+-]?([0-9]+([.][0-9]*)?|[.][0-9]+)`.  Returns the specifier (with
`options = trim(slice)`, i.e. without `%` and the letter) and the end
position.  When the optional `opts` body fails after a sign, the only other
path through the regex is empty `opts`, with the type letter directly after
`%`. -/
def fmtSpecMatch (fmt : List Char) (pos : Nat) : Option (Specifier × Nat) :=
  let q := pos + 1
  let afterOpts :=
    let q1 := if fmt.get? q == some '+' || fmt.get? q == some '-' then q + 1 else q
    let d1 := scanW fmt Char.isDigit q1
    if q1 < d1 then
      if fmt.get? d1 == some '.' then scanW fmt Char.isDigit (d1+1) else d1
    else if fmt.get? q1 == some '.' then
      let d2 := scanW fmt Char.isDigit (q1+1)
      if q1 + 1 < d2 then d2 else q
    else q
  let letterAt : Nat → Option (Specifier × Nat) := fun e =>
    match fmt.get? e with
    | some 'd' | some 'i' => some (⟨slice fmt q e, .int⟩, e + 1)
    | some 's' => some (⟨slice fmt q e, .string⟩, e + 1)
    | some 'f' => some (⟨slice fmt q e, .float⟩, e + 1)
    | _ => none
  match letterAt afterOpts with
  | some r => some r
  | none => if afterOpts == q then none else letterAt q

/-- One step of the format-string lexer: a specifier token (`some Specifier`)
or a `Normal` token (`none`; the `\\.` escape regex or a one-character error
token). -/
def formatNextTok (fmt : List Char) (pos : Nat) :
    Option (Option Specifier × Span × Nat) :=
  match fmt.get? pos with
  | none => none
  | some c =>
    if c == '%' then
      match fmtSpecMatch fmt pos with
      | some (spec, e) => some (some spec, ⟨pos, e⟩, e)
      | none => some (none, ⟨pos, pos+1⟩, pos+1)
    else if c == '\\' then
      match fmt.get? (pos+1) with
      | some c2 =>
        if c2 == '\n' then some (none, ⟨pos, pos+1⟩, pos+1)
        else some (none, ⟨pos, pos+2⟩, pos+2)
      | none => some (none, ⟨pos, pos+1⟩, pos+1)
    else some (none, ⟨pos, pos+1⟩, pos+1)

/-- The mutable state of `Specifiers` from src/parse.rs: lexer position, the
`before` and `remainder` fields, and the span of the last lexed token
(`lex.span()`). -/
structure SpecState where
  pos : Nat
  before : List Char
  remainder : List Char
  tokSpan : Span
deriving DecidableEq, Repr

/-- `Specifiers::new`. -/
def SpecState.new (fmt : List Char) : SpecState :=
  ⟨0, [], fmt, ⟨0, 0⟩⟩

/-- `Specifiers::span(format_offset)`. -/
def SpecState.spanAt (st : SpecState) (offset : Nat) : Span :=
  ⟨offset + st.tokSpan.start, offset + st.tokSpan.stop⟩

/-- The `loop` of `Specifiers::next`: accumulate `Normal` token spans into
`span`; on a specifier token, set `before` to the accumulated literal text and
`remainder` to the rest of the format string, and yield the specifier. -/
def specLoop (fmt : List Char) (span : Option Span) (st : SpecState) :
    Nat → Option (Specifier × SpecState)
  | 0 => none
  | fuel+1 =>
    match formatNextTok fmt st.pos with
    | none => none
    | some (some spec, sp, pos') =>
      some (spec,
        ⟨pos', (span.map fun s => slice fmt s.start s.stop).getD [],
         fmt.drop pos', sp⟩)
    | some (none, sp, pos') =>
      specLoop fmt (some (unionSpan span sp)) { st with pos := pos', tokSpan := sp } fuel

/-- `Specifiers::next` (on `None`, the caller's state is unchanged). -/
def specNext (fmt : List Char) (st : SpecState) : Option (Specifier × SpecState) :=
  specLoop fmt none st (fmt.length + 1)

/-- `Iterator::count` on `Specifiers`. -/
def specCount (fmt : List Char) (st : SpecState) : Nat → Nat
  | 0 => 0
  | n+1 =>
    match specNext fmt st with
    | some (_, st') => specCount fmt st' n + 1
    | none => 0

/-- `FormatValue` from src/ir.rs. -/
structure FormatValue where
  arg : List Char
  type_checked : Bool
  specifier : Specifier
deriving DecidableEq, Repr

/-- `Interpolation` from src/ir.rs. -/
structure Interp (α : Type) where
  pairs : List (List Char × α)
  last : List Char
deriving DecidableEq, Repr

/-- `Site` from src/ir.rs. -/
inductive Site where
  | printf (format : Interp FormatValue)
  | sprintf (buffer : List Char) (format : Interp FormatValue)
  | snprintf (buffer : List Char) (bufsz : List Char) (format : Interp FormatValue)
deriving DecidableEq, Repr

/-- The `loop` of `parse_args` from src/ir.rs: lock-step over
`(specifiers.next(), args.next())`.  `maybePairs` is `maybe_pairs`; errors
pushed by an iteration precede those of later iterations.  The result carries
the final `Args` state (whose `resume` is the source-lexer position).
The fuel-exhausted branch returns the same value as the `(None, None)`
branch; it is never reached for `fuel ≥ number of specifiers + 1` since every
continuing iteration consumes a specifier. -/
def matchLoop (src fmt : List Char) (format_span : Span) (specSt : SpecState)
    (argSt : ArgsState) (maybePairs : Option (List (List Char × FormatValue))) :
    Nat → Option (Interp FormatValue) × List Error × ArgsState
  | 0 => (maybePairs.map fun ps => ⟨ps, specSt.remainder⟩, [], argSt)
  | fuel+1 =>
    match specNext fmt specSt, argsNext src argSt with
    | some (spec, specSt'), (some arg, argSt') =>
      match maybePairs, arg.cast with
      | some pairs, some (cast_ctype, cast_span) =>
        if cast_ctype = spec.ctype then
          matchLoop src fmt format_span specSt' argSt'
            (some (pairs ++
              [(specSt'.before,
                ⟨slice src arg.span.start arg.span.stop, true, spec⟩)])) fuel
        else
          let r := matchLoop src fmt format_span specSt' argSt' none fuel
          (r.1,
           .specifierCastMismatch (specSt'.spanAt (format_span.start + 1))
             spec.ctype cast_span cast_ctype :: r.2.1,
           r.2.2)
      | some pairs, none =>
        matchLoop src fmt format_span specSt' argSt'
          (some (pairs ++
            [(specSt'.before,
              ⟨slice src arg.span.start arg.span.stop, false, spec⟩)])) fuel
      | none, some (cast_ctype, cast_span) =>
        if cast_ctype = spec.ctype then
          matchLoop src fmt format_span specSt' argSt' none fuel
        else
          let r := matchLoop src fmt format_span specSt' argSt' none fuel
          (r.1,
           .specifierCastMismatch (specSt'.spanAt (format_span.start + 1))
             spec.ctype cast_span cast_ctype :: r.2.1,
           r.2.2)
      | none, none =>
        matchLoop src fmt format_span specSt' argSt' none fuel
    | some (_, specSt'), (none, argSt') =>
      let (_, args_span, stf) := short_circuit src argSt' (src.length + 1)
      (none,
       [.excessSpecifiers format_span args_span
          (specCount fmt specSt' (fmt.length + 1) + 1)],
       stf)
    | none, (some _, argSt') =>
      let (remaining, args_span, stf) := short_circuit src argSt' (src.length + 1)
      (none, [.excessArgs format_span args_span (remaining + 1)], stf)
    | none, (none, argSt') =>
      (maybePairs.map fun ps => ⟨ps, specSt.remainder⟩, [], argSt')

/-- The `PRE_ARGS` loop of `parse_args`: parse `pre` leading arguments; a
missing one reports `MissingFunctionArgs` over the drained span. -/
def preArgsLoop (src : List Char) (st : ArgsState) :
    Nat → Option (List (List Char)) × List Error × ArgsState
  | 0 => (some [], [], st)
  | n+1 =>
    match argsNext src st with
    | (some arg, st') =>
      match preArgsLoop src st' n with
      | (some rest, es, stf) =>
        (some (slice src arg.span.start arg.span.stop :: rest), es, stf)
      | r => r
    | (none, st') =>
      let (_, sp, stf) := short_circuit src st' (src.length + 1)
      (none, [.missingFunctionArgs sp], stf)

/-- `parse_args` from src/ir.rs, generic over the number of pre-format
arguments.  `start` is the source position just after the call's `(`; the
third component is the source-lexer position after the call (moved past the
closing `)` exactly when the argument splitter consumed one). -/
def parse_args (pre : Nat) (src : List Char) (start : Nat) :
    Option (List (List Char) × Interp FormatValue) × List Error × Nat :=
  let st0 := ArgsState.new start
  match preArgsLoop src st0 pre with
  | (none, es, stf) => (none, es, stf.resume)
  | (some pres, _, st1) =>
    match next_format_string src st1 with
    | (.error e, st2) => (none, [e], st2.resume)
    | (.ok (fmt, format_span), st2) =>
      let r := matchLoop src fmt format_span (SpecState.new fmt) st2 (some [])
        (fmt.length + 1)
      ((r.1.map fun i => (pres, i)), r.2.1, r.2.2.resume)

/-- The `match (&mut pairs, site)` step of `IntermediateRepresentation::parse`:
`(Some(pairs), Some(site))` pushes, `(_, None)` clears `pairs`,
`(None, Some(_))` is ignored. -/
def pushSite (pairsOpt : Option (List (List Char × Site))) (before : List Char) :
    Option Site → Option (List (List Char × Site))
  | some s => pairsOpt.map fun ps => ps ++ [(before, s)]
  | none => none

/-- The `while let` loop of `IntermediateRepresentation::parse` from
src/ir.rs.  `span` accumulates the current verbatim chunk; `pairsOpt` is the
`pairs` option.  In the `printf` branch the pending span is only read
(`span.as_ref()`), in the `sprintf`/`snprintf` branches it is taken
(`span.take()`); a tracked name not followed by `(` `continue`s with the
peeked token consumed. -/
def parseLoop (src : List Char) :
    Nat → Nat → Option Span → Option (List (List Char × Site)) →
    Option (List (List Char × Site)) × List Error × Option Span
  | 0, _, span, pairsOpt => (pairsOpt, [], span)
  | fuel+1, pos, span, pairsOpt =>
    match srcNextTok src pos with
    | none => (pairsOpt, [], span)
    | some (tok, sp, pos') =>
      match tok with
      | .printf =>
        let before := (span.map fun s => slice src s.start sp.start).getD []
        (match srcNextTok src pos' with
         | some (.lparen, sp2, _) =>
           let r := parse_args 0 src sp2.stop
           let pairs' := pushSite pairsOpt before (r.1.map fun pf => Site.printf pf.2)
           let rest := parseLoop src fuel r.2.2 none pairs'
           (rest.1, r.2.1 ++ rest.2.1, rest.2.2)
         | some (_, _, pos2) => parseLoop src fuel pos2 span pairsOpt
         | none => (pairsOpt, [], span))
      | .sprintf =>
        let before := (span.map fun s => slice src s.start sp.start).getD []
        (match srcNextTok src pos' with
         | some (.lparen, sp2, _) =>
           let r := parse_args 1 src sp2.stop
           let pairs' := pushSite pairsOpt before
             (r.1.map fun pf => Site.sprintf (pf.1.headD []) pf.2)
           let rest := parseLoop src fuel r.2.2 none pairs'
           (rest.1, r.2.1 ++ rest.2.1, rest.2.2)
         | some (_, _, pos2) => parseLoop src fuel pos2 none pairsOpt
         | none => (pairsOpt, [], none))
      | .snprintf =>
        let before := (span.map fun s => slice src s.start sp.start).getD []
        (match srcNextTok src pos' with
         | some (.lparen, sp2, _) =>
           let r := parse_args 2 src sp2.stop
           let pairs' := pushSite pairsOpt before
             (r.1.map fun pf => Site.snprintf (pf.1.headD []) (pf.1.getD 1 []) pf.2)
           let rest := parseLoop src fuel r.2.2 none pairs'
           (rest.1, r.2.1 ++ rest.2.1, rest.2.2)
         | some (_, _, pos2) => parseLoop src fuel pos2 none pairsOpt
         | none => (pairsOpt, [], none))
      | _ => parseLoop src fuel pos' (some (unionSpan span sp)) pairsOpt

/-- `IntermediateRepresentation::parse` from src/ir.rs. -/
def parse (src : List Char) : Except (List Error) (Interp Site) :=
  let r := parseLoop src (src.length + 1) 0 none (some [])
  match r.1 with
  | some ps =>
    .ok ⟨ps, (r.2.2.map fun s => slice src s.start s.stop).getD []⟩
  | none => .error r.2.1

/-- The per-pair text of `display_optimize`:
`", \"{chunk}\", (void*) {&?}({arg}), {format_fn}"`. -/
def optimizePair (p : List Char × FormatValue) : List Char :=
  ", \"".data ++ p.1 ++ "\", (void*) ".data ++
    (if p.2.specifier.ctype ≠ CType.string then ['&'] else []) ++
    "(".data ++ p.2.arg ++ "), ".data ++ p.2.specifier.ctype.format_fn

/-- The format-interpolation part of `display_optimize`: the computed
argument count `pairs.len() * 3 + 1`, the flattened pairs, and the trailing
chunk with the closing parenthesis. -/
def renderFormatOptimize (fmt : Interp FormatValue) : List Char :=
  natChars (fmt.pairs.length * 3 + 1) ++ (fmt.pairs.map optimizePair).flatten ++
    ", \"".data ++ fmt.last ++ "\")".data

/-- The per-`Site` rendering of `display_optimize` from src/ir.rs. -/
def renderSiteOptimize : Site → List Char
  | .printf fmt => "safe_printf(".data ++ renderFormatOptimize fmt
  | .sprintf buffer fmt =>
    "safe_sprintf((char* restrict) (".data ++ buffer ++ "), ".data ++
      renderFormatOptimize fmt
  | .snprintf buffer bufsz fmt =>
    "safe_snprintf((char* restrict) (".data ++ buffer ++ "), (size_t) (".data ++
      bufsz ++ "), ".data ++ renderFormatOptimize fmt

/-- The format-string reconstruction loop of `display_typecast`:
`{chunk}%{options}{specifier_char}` per pair. -/
def typecastFormatPair (p : List Char × FormatValue) : List Char :=
  p.1 ++ "%".data ++ p.2.specifier.options ++ [p.2.specifier.ctype.specifier_char]

/-- The argument reconstruction loop of `display_typecast`: a type-checked
argument is passed through as `, {arg}`, any other is wrapped as
`, ({ctype}) ({arg})`. -/
def typecastArgPair (p : List Char × FormatValue) : List Char :=
  if p.2.type_checked then ", ".data ++ p.2.arg
  else ", (".data ++ p.2.specifier.ctype.display ++ ") (".data ++ p.2.arg ++ ")".data

/-- The format-interpolation part of `display_typecast`: the reconstructed
format string (closing quote included), then the arguments, then `)`. -/
def renderFormatTypecast (fmt : Interp FormatValue) : List Char :=
  (fmt.pairs.map typecastFormatPair).flatten ++ fmt.last ++ "\"".data ++
    (fmt.pairs.map typecastArgPair).flatten ++ ")".data

/-- The per-`Site` rendering of `display_typecast` from src/ir.rs. -/
def renderSiteTypecast : Site → List Char
  | .printf fmt => "printf(\"".data ++ renderFormatTypecast fmt
  | .sprintf buffer fmt =>
    "sprintf((char* restrict) (".data ++ buffer ++ "), \"".data ++
      renderFormatTypecast fmt
  | .snprintf buffer bufsz fmt =>
    "snprintf((char* restrict) (".data ++ buffer ++ "), (size_t) (".data ++
      bufsz ++ "), \"".data ++ renderFormatTypecast fmt

/-- `DisplayIntermediateRepresentation`: chunk, site rendering, …, last chunk. -/
def renderIR (f : Site → List Char) (ir : Interp Site) : List Char :=
  (ir.pairs.map fun p => p.1 ++ f p.2).flatten ++ ir.last

/-- `IntermediateRepresentation::display_optimize`, as text. -/
def display_optimize (ir : Interp Site) : List Char :=
  renderIR renderSiteOptimize ir

/-- `IntermediateRepresentation::display_typecast`, as text. -/
def display_typecast (ir : Interp Site) : List Char :=
  renderIR renderSiteTypecast ir

/-!  Helper lemmas about the matcher. -/

/-- Once `maybe_pairs` is `None`, the matcher can never return a successful
interpolation. -/
theorem matchLoop_none_res (src fmt : List Char) (fsp : Span) :
    ∀ fuel specSt argSt, (matchLoop src fmt fsp specSt argSt none fuel).1 = none := by
  intro fuel
  induction fuel with
  | zero => intro s a; simp [matchLoop]
  | succ n ih =>
    intro s a
    simp only [matchLoop]
    rcases h1 : specNext fmt s with _ | ⟨spec, s'⟩ <;>
      rcases h2 : argsNext src a with ⟨_ | arg, a'⟩
    · simp
    · simp
    · simp
    · rcases h3 : arg.cast with _ | ⟨ct, csp⟩
      · simp [h3, ih]
      · by_cases h4 : ct = spec.ctype <;> simp [h3, h4, ih]

/-- A successful matcher run pushes no errors. -/
theorem matchLoop_res_some_errs (src fmt : List Char) (fsp : Span) :
    ∀ fuel specSt argSt mp i es stf,
      matchLoop src fmt fsp specSt argSt mp fuel = (some i, es, stf) → es = [] := by
  intro fuel
  induction fuel with
  | zero =>
    intro s a mp i es stf h
    simp only [matchLoop, Prod.mk.injEq] at h
    exact h.2.1.symm
  | succ n ih =>
    intro s a mp i es stf h
    simp only [matchLoop] at h
    rcases h1 : specNext fmt s with _ | ⟨spec, s'⟩ <;>
      rcases h2 : argsNext src a with ⟨_ | arg, a'⟩ <;>
      rw [h1, h2] at h
    · simp only [Prod.mk.injEq] at h; exact h.2.1.symm
    · simp only [Prod.mk.injEq] at h
      exact absurd h.1 (by simp)
    · simp only [Prod.mk.injEq] at h
      exact absurd h.1 (by simp)
    · rcases mp with _ | pairs <;> rcases h3 : arg.cast with _ | ⟨ct, csp⟩ <;>
        simp only [h3] at h
      · exact ih _ _ _ _ _ _ h
      · by_cases h4 : ct = spec.ctype
        · simp only [if_pos h4] at h
          exact ih _ _ _ _ _ _ h
        · simp only [if_neg h4, Prod.mk.injEq] at h
          rw [matchLoop_none_res src fmt fsp n s' a'] at h
          exact absurd h.1 (by simp)
      · exact ih _ _ _ _ _ _ h
      · by_cases h4 : ct = spec.ctype
        · simp only [if_pos h4] at h
          exact ih _ _ _ _ _ _ h
        · simp only [if_neg h4, Prod.mk.injEq] at h
          rw [matchLoop_none_res src fmt fsp n s' a'] at h
          exact absurd h.1 (by simp)

/-- A failed matcher run (starting in the building mode) pushes at least one
error. -/
theorem matchLoop_some_none_errs (src fmt : List Char) (fsp : Span) :
    ∀ fuel specSt argSt ps,
      (matchLoop src fmt fsp specSt argSt (some ps) fuel).1 = none →
      (matchLoop src fmt fsp specSt argSt (some ps) fuel).2.1 ≠ [] := by
  intro fuel
  induction fuel with
  | zero =>
    intro s a ps h
    simp [matchLoop] at h
  | succ n ih =>
    intro s a ps h
    simp only [matchLoop] at h ⊢
    rcases h1 : specNext fmt s with _ | ⟨spec, s'⟩
    · rcases h2 : argsNext src a with ⟨arg?, a'⟩
      rcases arg? with _ | arg
      · simp only [h1, h2] at h
        simp at h
      · simp only [h1, h2]
        simp
    · rcases h2 : argsNext src a with ⟨arg?, a'⟩
      rcases arg? with _ | arg
      · simp only [h1, h2]
        simp
      · simp only [h1, h2] at h ⊢
        rcases h3 : arg.cast with _ | ⟨ct, csp⟩
        · simp only [h3] at h ⊢
          exact ih _ _ _ h
        · simp only [h3] at h ⊢
          by_cases h4 : ct = spec.ctype
          · simp only [if_pos h4] at h ⊢
            exact ih _ _ _ h
          · simp only [if_neg h4]
            simp

/-- `pushSite` keeps a cleared `pairs` cleared. -/
theorem pushSite_none (before : List Char) (s : Option Site) :
    pushSite none before s = none := by
  cases s <;> simp [pushSite]

/-- A successful pre-argument loop pushes no errors. -/
theorem preArgsLoop_some_errs (src : List Char) :
    ∀ pre st x es stf, preArgsLoop src st pre = (some x, es, stf) → es = [] := by
  intro pre
  induction pre with
  | zero =>
    intro st x es stf h
    simp only [preArgsLoop, Prod.mk.injEq] at h
    exact h.2.1.symm
  | succ n ih =>
    intro st x es stf h
    simp only [preArgsLoop] at h
    rcases h1 : argsNext src st with ⟨_ | arg, st'⟩ <;> simp only [h1] at h
    · simp at h
    · rcases h2 : preArgsLoop src st' n with ⟨_ | rest, es', stf'⟩ <;>
        simp only [h2, Prod.mk.injEq] at h
      · exact absurd h.1 (by simp)
      · exact h.2.1 ▸ ih st' rest es' stf' h2

/-- A failed pre-argument loop pushes an error. -/
theorem preArgsLoop_none_errs (src : List Char) :
    ∀ pre st es stf, preArgsLoop src st pre = (none, es, stf) → es ≠ [] := by
  intro pre
  induction pre with
  | zero =>
    intro st es stf h
    simp [preArgsLoop] at h
  | succ n ih =>
    intro st es stf h
    simp only [preArgsLoop] at h
    rcases h1 : argsNext src st with ⟨_ | arg, st'⟩ <;> simp only [h1] at h
    · simp only [Prod.mk.injEq] at h
      intro hne
      rw [hne] at h
      exact absurd h.2.1 (by simp)
    · rcases h2 : preArgsLoop src st' n with ⟨_ | rest, es', stf'⟩ <;>
        simp only [h2, Prod.mk.injEq] at h
      · exact h.2.1 ▸ ih st' es' stf' h2
      · exact absurd h.1 (by simp)

/-- A call site that validates pushes no errors. -/
theorem parse_args_some_errs (pre : Nat) (src : List Char) (start : Nat)
    (x : List (List Char) × Interp FormatValue) (es : List Error) (rp : Nat)
    (h : parse_args pre src start = (some x, es, rp)) : es = [] := by
  simp only [parse_args] at h
  rcases h1 : preArgsLoop src (ArgsState.new start) pre with ⟨_ | pres, es1, st1⟩ <;>
    simp only [h1] at h
  · simp at h
  · rcases h2 : next_format_string src st1 with ⟨⟨e⟩ | ⟨fmt, fsp⟩, st2⟩ <;>
      simp only [h2] at h
    · simp at h
    · rcases h3 : (matchLoop src fmt fsp (SpecState.new fmt) st2 (some []) (fmt.length + 1))
        with ⟨r1, es3, st3⟩
      simp only [h3, Prod.mk.injEq] at h
      rcases r1 with _ | i
      · exact absurd h.1 (by simp)
      · exact h.2.1 ▸ matchLoop_res_some_errs src fmt fsp (fmt.length + 1) _ _ _ _ _ _ h3

/-- A call site that fails validation pushes at least one error. -/
theorem parse_args_none_errs (pre : Nat) (src : List Char) (start : Nat)
    (es : List Error) (rp : Nat)
    (h : parse_args pre src start = (none, es, rp)) : es ≠ [] := by
  simp only [parse_args] at h
  rcases h1 : preArgsLoop src (ArgsState.new start) pre with ⟨pres?, es1, st1⟩
  simp only [h1] at h
  rcases pres? with _ | pres
  · simp only [Prod.mk.injEq] at h
    exact h.2.1 ▸ preArgsLoop_none_errs src pre _ _ _ h1
  · rcases h2 : next_format_string src st1 with ⟨⟨e⟩ | ⟨fmt, fsp⟩, st2⟩ <;>
      simp only [h2] at h
    · simp only [Prod.mk.injEq] at h
      exact h.2.1 ▸ (by simp)
    · rcases h3 : (matchLoop src fmt fsp (SpecState.new fmt) st2 (some []) (fmt.length + 1))
        with ⟨r1, es3, st3⟩
      simp only [h3, Prod.mk.injEq] at h
      rcases r1 with _ | i
      · have := matchLoop_some_none_errs src fmt fsp (fmt.length + 1) (SpecState.new fmt) st2 []
          (by rw [h3])
        rw [h3] at this
        exact h.2.1 ▸ this
      · exact absurd h.1 (by simp)

theorem parseLoop_none_res (src : List Char) :
    ∀ fuel pos span, (parseLoop src fuel pos span none).1 = none := by
  intro fuel
  induction fuel with
  | zero => intro pos span; simp [parseLoop]
  | succ n ih =>
    intro pos span
    simp only [parseLoop]
    rcases h1 : srcNextTok src pos with _ | ⟨tok, sp, pos'⟩
    · simp
    · cases tok <;> simp only [h1]
      case printf | sprintf | snprintf =>
        rcases h2 : srcNextTok src pos' with _ | ⟨tok2, sp2, pos2⟩
        · simp [h2]
        · cases tok2 <;> simp [h2, pushSite_none, ih]
      all_goals simp [ih]

theorem trackedStep_some_errs {src : List Char} {n k start : Nat}
    {mk : List (List Char) × Interp FormatValue → Site}
    {mp : Option (List (List Char × Site))} {before : List Char}
    {i : List (List Char × Site)} {es : List Error} {sf : Option Span}
    (ih : ∀ pos span mp i es sf,
      parseLoop src n pos span mp = (some i, es, sf) → es = [])
    (h : ((parseLoop src n (parse_args k src start).2.2 none
            (pushSite mp before ((parse_args k src start).1.map mk))).1,
          (parse_args k src start).2.1 ++
            (parseLoop src n (parse_args k src start).2.2 none
              (pushSite mp before ((parse_args k src start).1.map mk))).2.1,
          (parseLoop src n (parse_args k src start).2.2 none
            (pushSite mp before ((parse_args k src start).1.map mk))).2.2) =
        (some i, es, sf)) :
    es = [] := by
  simp only [Prod.mk.injEq] at h
  rcases h4 : (parse_args k src start).1 with _ | pf
  · rw [h4] at h
    rw [show Option.map mk (none : Option (List (List Char) × Interp FormatValue)) = none from rfl] at h
    rw [show ∀ b, pushSite mp b none = none from fun b => rfl] at h
    rw [parseLoop_none_res src n] at h
    exact absurd h.1 (by simp)
  · have e1 : (parse_args k src start).2.1 = [] :=
      parse_args_some_errs k src start pf _ _ (by rw [← h4])
    rw [h4] at h
    have e2 : (parseLoop src n (parse_args k src start).2.2 none
        (pushSite mp before (Option.map mk (some pf)))).2.1 = [] :=
      ih _ _ _ _ _ _ (by rw [← h.1])
    rw [e1, e2, List.nil_append] at h
    exact h.2.1.symm

theorem parseLoop_some_errs (src : List Char) :
    ∀ fuel pos span mp i es sf,
      parseLoop src fuel pos span mp = (some i, es, sf) → es = [] := by
  intro fuel
  induction fuel with
  | zero =>
    intro pos span mp i es sf h
    simp only [parseLoop, Prod.mk.injEq] at h
    exact h.2.1.symm
  | succ n ih =>
    intro pos span mp i es sf h
    simp only [parseLoop] at h
    rcases h1 : srcNextTok src pos with _ | ⟨tok, sp, pos'⟩ <;> simp only [h1] at h
    · simp only [Prod.mk.injEq] at h
      exact h.2.1.symm
    · cases tok <;> simp only at h
      case printf | sprintf | snprintf =>
        rcases h2 : srcNextTok src pos' with _ | ⟨tok2, sp2, pos2⟩ <;> simp only [h2] at h
        · simp only [Prod.mk.injEq] at h
          exact h.2.1.symm
        · cases tok2 <;> simp only at h
          case lparen => exact trackedStep_some_errs ih h
          all_goals exact ih _ _ _ _ _ _ h
      all_goals exact ih _ _ _ _ _ _ h

theorem trackedStep_none_errs {src : List Char} {n k start : Nat}
    {mk : List (List Char) × Interp FormatValue → Site}
    {ps : List (List Char × Site)} {before : List Char}
    (ih : ∀ pos span ps, (parseLoop src n pos span (some ps)).1 = none →
      (parseLoop src n pos span (some ps)).2.1 ≠ [])
    (h : (parseLoop src n (parse_args k src start).2.2 none
            (pushSite (some ps) before ((parse_args k src start).1.map mk))).1 = none) :
    (parse_args k src start).2.1 ++
      (parseLoop src n (parse_args k src start).2.2 none
        (pushSite (some ps) before ((parse_args k src start).1.map mk))).2.1 ≠ [] := by
  rcases h4 : (parse_args k src start).1 with _ | pf
  · have e1 : (parse_args k src start).2.1 ≠ [] :=
      parse_args_none_errs k src start _ _ (by rw [← h4])
    intro hc
    rw [List.append_eq_nil] at hc
    exact e1 hc.1
  · rw [h4] at h
    have e2 := ih (parse_args k src start).2.2 none (ps ++ [(before, mk pf)]) h
    intro hc
    rw [List.append_eq_nil] at hc
    exact e2 hc.2

theorem parseLoop_nones_errs (src : List Char) :
    ∀ fuel pos span ps,
      (parseLoop src fuel pos span (some ps)).1 = none →
      (parseLoop src fuel pos span (some ps)).2.1 ≠ [] := by
  intro fuel
  induction fuel with
  | zero =>
    intro pos span ps h
    simp [parseLoop] at h
  | succ n ih =>
    intro pos span ps h
    simp only [parseLoop] at h ⊢
    rcases h1 : srcNextTok src pos with _ | ⟨tok, sp, pos'⟩ <;> simp only [h1] at h ⊢
    · simp at h
    · cases tok <;> simp only at h ⊢
      case printf | sprintf | snprintf =>
        rcases h2 : srcNextTok src pos' with _ | ⟨tok2, sp2, pos2⟩ <;> simp only [h2] at h ⊢
        · simp at h
        · cases tok2 <;> simp only at h ⊢
          case lparen => exact trackedStep_none_errs ih h
          all_goals exact ih _ _ _ h
      all_goals exact ih _ _ _ h

theorem parseLoop_errs_indep (src : List Char) :
    ∀ fuel pos span mp mp',
      (parseLoop src fuel pos span mp).2 = (parseLoop src fuel pos span mp').2 := by
  intro fuel
  induction fuel with
  | zero => intro pos span mp mp'; simp [parseLoop]
  | succ n ih =>
    intro pos span mp mp'
    simp only [parseLoop]
    rcases h1 : srcNextTok src pos with _ | ⟨tok, sp, pos'⟩
    · simp
    · cases tok <;> simp only [h1]
      case printf | sprintf | snprintf =>
        rcases h2 : srcNextTok src pos' with _ | ⟨tok2, sp2, pos2⟩
        · simp [h2]
        · cases tok2 <;> simp only [h2] <;>
            first
            | (refine congrArg₂ Prod.mk ?_ ?_
               · exact congrArg _ (congrArg Prod.fst (ih _ _ _ _))
               · exact congrArg Prod.snd (ih _ _ _ _))
            | exact ih _ _ _ _
      all_goals exact ih _ _ _ _

/-! Claim theorems (concrete and step-level). -/

set_option maxRecDepth 10000

/-- C10: the Argument Splitter never yields an `Arg` for an empty argument
slot.  When a top-level comma or the closing `)` is reached with no content
tokens accumulated (`span` is still `None`), `Args::next` returns `None`
instead of producing an `Arg` (the `span?` operator).  Consequently
`printf("%d",)` supplies only the format string and is reported as
`ExcessSpecifiers` (with count 1), and `printf()` is reported as
`MissingFunctionArgs` over the empty argument region, not as a non-literal
empty format argument. -/
theorem c10_empty_slot :
    (∀ (src : List Char) (cast : Option (CType × Span)) (single : Option ArgToken)
       (count : Nat) (st : ArgsState) (sp : Span) (pos' fuel : Nat),
       argNextTok src st.pos = some (.comma, sp, pos') →
       argLoop src cast none 0 single count st (fuel+1) = (none, { st with pos := pos' })) ∧
    (∀ (src : List Char) (cast : Option (CType × Span)) (single : Option ArgToken)
       (count : Nat) (st : ArgsState) (sp : Span) (pos' fuel : Nat),
       argNextTok src st.pos = some (.rparen, sp, pos') →
       argLoop src cast none 0 single count st (fuel+1) =
         (none, { st with pos := pos', hasRemaining := false, stop := sp.start })) ∧
    parse "printf(\"%d\",);".data = .error [.excessSpecifiers ⟨7, 11⟩ ⟨7, 12⟩ 1] ∧
    parse "printf();".data = .error [.missingFunctionArgs ⟨7, 7⟩] := by
  refine ⟨?_, ?_, rfl, rfl⟩
  · intro src cast single count st sp pos' fuel h
    simp [argLoop, h]
  · intro src cast single count st sp pos' fuel h
    simp [argLoop, h]

/-- C10 witness: the comma and closing-parenthesis empty-slot equations of
`c10_empty_slot` instantiated on concrete argument text. -/
theorem c10_empty_slot_witness :
    argLoop ",x)".data none none 0 none 0 (ArgsState.new 0) 4 =
      (none, { ArgsState.new 0 with pos := 1 }) ∧
    argLoop ")".data none none 0 none 0 (ArgsState.new 0) 4 =
      (none, { ArgsState.new 0 with pos := 1, hasRemaining := false, stop := 0 }) :=
  ⟨c10_empty_slot.1 ",x)".data none none 0 (ArgsState.new 0) ⟨0, 1⟩ 1 3 rfl,
   c10_empty_slot.2.1 ")".data none none 0 (ArgsState.new 0) ⟨0, 1⟩ 1 3 rfl⟩

/-- C2: count mismatches are immediately fatal for a call.  When a specifier
is yielded but the arguments are exhausted, the matcher stops and reports
`ExcessSpecifiers` whose count is the current specifier plus all specifiers
the scanner would still yield (`specifiers.count() + 1`) and whose argument
span is the drained `start..end` span of the call's argument list; when an
argument is yielded but the specifiers are exhausted, the matcher stops and
reports `ExcessArgs` counting the current argument plus all remaining ones
drained via `short_circuit`, carrying the format-string span and the
arguments span.  In particular `printf("%d %d", x)` yields exactly
`ExcessSpecifiers` with `additional_specifiers = 1`. -/
theorem c2_count_mismatch :
    (∀ (src fmt : List Char) (fsp : Span) (specSt : SpecState) (argSt : ArgsState)
       (mp : Option (List (List Char × FormatValue))) (fuel : Nat)
       (spec : Specifier) (specSt' : SpecState) (argSt' : ArgsState),
       specNext fmt specSt = some (spec, specSt') →
       argsNext src argSt = (none, argSt') →
       matchLoop src fmt fsp specSt argSt mp (fuel+1) =
         (none,
          [.excessSpecifiers fsp (short_circuit src argSt' (src.length + 1)).2.1
             (specCount fmt specSt' (fmt.length + 1) + 1)],
          (short_circuit src argSt' (src.length + 1)).2.2)) ∧
    (∀ (src fmt : List Char) (fsp : Span) (specSt : SpecState) (argSt : ArgsState)
       (mp : Option (List (List Char × FormatValue))) (fuel : Nat)
       (arg : Arg) (argSt' : ArgsState),
       specNext fmt specSt = none →
       argsNext src argSt = (some arg, argSt') →
       matchLoop src fmt fsp specSt argSt mp (fuel+1) =
         (none,
          [.excessArgs fsp (short_circuit src argSt' (src.length + 1)).2.1
             ((short_circuit src argSt' (src.length + 1)).1 + 1)],
          (short_circuit src argSt' (src.length + 1)).2.2)) ∧
    parse "printf(\"%d %d\", x);".data =
      .error [.excessSpecifiers ⟨7, 14⟩ ⟨7, 17⟩ 1] := by
  refine ⟨?_, ?_, rfl⟩
  · intro src fmt fsp specSt argSt mp fuel spec specSt' argSt' h1 h2
    simp [matchLoop, h1, h2]
  · intro src fmt fsp specSt argSt mp fuel arg argSt' h1 h2
    simp [matchLoop, h1, h2]

/-- C2 witness: both fatal-count equations of `c2_count_mismatch`
instantiated on concrete text (a `%d` specifier with no argument left, and an
argument `x` with an empty format string). -/
theorem c2_count_mismatch_witness :
    matchLoop ")".data "%d".data ⟨7, 11⟩ (SpecState.new "%d".data) (ArgsState.new 0)
        (some []) 3 =
      (none, [.excessSpecifiers ⟨7, 11⟩ ⟨0, 0⟩ 1], ⟨1, false, 0, 0⟩) ∧
    matchLoop "x)".data [] ⟨7, 9⟩ (SpecState.new []) (ArgsState.new 0) (some []) 3 =
      (none, [.excessArgs ⟨7, 9⟩ ⟨0, 1⟩ 1], ⟨2, false, 0, 1⟩) := by
  constructor
  · have := c2_count_mismatch.1 ")".data "%d".data ⟨7, 11⟩ (SpecState.new "%d".data)
      (ArgsState.new 0) (some []) 2 ⟨[], .int⟩ ⟨2, [], [], ⟨0, 2⟩⟩ ⟨1, false, 0, 0⟩ rfl rfl
    exact this.trans (by rfl)
  · have := c2_count_mismatch.2.1 "x)".data [] ⟨7, 9⟩ (SpecState.new []) (ArgsState.new 0)
      (some []) 2 ⟨some (.identifier ['x']), ⟨0, 1⟩, none⟩ ⟨2, false, 0, 1⟩ rfl rfl
    exact this.trans (by rfl)



/-- C9 (code bug): `printf(name)` with a bare identifier is reported as
`NonliteralFormat` with the help text suggesting `printf("%s", name)` — but
contrary to the claim (and to the doc comment on `Arg::single_token`,
"skipping comments and whitespaces"), comments are NOT ignored when
classifying the single token: in `printf(/* c */ name)` the comment token
falls into the catch-all arm of `Args::next` and is counted, so
`single_token` is `None` and the generic string-literal help text is
produced instead of the identifier suggestion. -/
theorem c9_single_token_comment :
    parse "printf(name);".data =
      .error [.nonliteralFormat ⟨7, 11⟩
        ("To safely print a string, use `printf(\"%s\", name)` instead.".data)] ∧
    parse "printf(/* c */ name);".data =
      .error [.nonliteralFormat ⟨7, 19⟩
        ("Use a string literal as the first argument, like `printf(\"hello\")`.".data)] :=
  ⟨rfl, rfl⟩

/-- C6 (code bug): a tracked name not followed by `(` produces no call site,
but only the `printf` branch preserves the surrounding verbatim chunk
(`span.as_ref()`): parsing `int printf2;` reproduces the full text.  The
`sprintf`/`snprintf` branches use `span.take()`, which clears the pending
chunk: parsing `int sprintf2;` yields a chunk-only IR containing just `;`,
and in `int sprintf2; printf("hi");` the text before the call site is
dropped from every rendering — contradicting the claim that the name's text
is re-merged and the preceding chunk text is not lost. -/
theorem c6_tracked_name_remerge :
    parse "int printf2;".data = .ok ⟨[], "int printf2;".data⟩ ∧
    parse "int sprintf2;".data = .ok ⟨[], ";".data⟩ ∧
    (parse "int sprintf2; printf(\"hi\");".data).map display_typecast =
      .ok "; printf(\"hi\");".data :=
  ⟨rfl, rfl, rfl⟩

/-- C4: for every validated call, the optimize rendering emits the
fixed-arity safe-variant call name, then a total argument count equal to
3 × (number of specifiers) + 1 (the rendered text of the format part starts
with that count), then for each `FormatValue` a literal chunk, a formatter
invocation `(void*) &(arg)` taking the address for `Int` and `Float` but
`(void*) (arg)` with no `&` for `String`, and the type-driven formatter
function name (`fmt_int`/`fmt_float`/`fmt_string`), then the trailing
literal chunk.  In particular a validated `snprintf(buf, n, "%s", str)`
renders with argument count 4, chunk `""`, `(void*) (str)` with no `&`,
`fmt_string`, and trailing chunk `""`. -/
theorem c4_optimize_render :
    (∀ fmt : Interp FormatValue, ∃ rest,
       renderFormatOptimize fmt = natChars (fmt.pairs.length * 3 + 1) ++ rest) ∧
    (∀ (chunk arg opts : List Char) (tc : Bool),
       optimizePair (chunk, ⟨arg, tc, ⟨opts, .int⟩⟩) =
         ", \"".data ++ chunk ++ "\", (void*) &(".data ++ arg ++ "), fmt_int".data ∧
       optimizePair (chunk, ⟨arg, tc, ⟨opts, .float⟩⟩) =
         ", \"".data ++ chunk ++ "\", (void*) &(".data ++ arg ++ "), fmt_float".data ∧
       optimizePair (chunk, ⟨arg, tc, ⟨opts, .string⟩⟩) =
         ", \"".data ++ chunk ++ "\", (void*) (".data ++ arg ++ "), fmt_string".data) ∧
    (parse "snprintf(buf, n, \"%s\", str);".data).map display_optimize =
      .ok "safe_snprintf((char* restrict) (buf), (size_t) (n), 4, \"\", (void*) (str), fmt_string, \"\");".data ∧
    (parse "printf(\"%d\", x);".data).map display_optimize =
      .ok "safe_printf(4, \"\", (void*) &(x), fmt_int, \"\");".data := by
  refine ⟨fun fmt =>
    ⟨(fmt.pairs.map optimizePair).flatten ++ ", \"".data ++ fmt.last ++ "\")".data, by simp [renderFormatOptimize]⟩,
    ?_, rfl, rfl⟩
  intro chunk arg opts tc
  refine ⟨?_, ?_, ?_⟩ <;> simp [optimizePair, CType.format_fn]



/-- C1: the matcher's both-present step.  Given that the specifier iterator
yields `spec` and the argument iterator yields `arg`: (1) if `arg` carries a
cast equal to `spec`'s type, a type-checked `FormatValue` is recorded and
matching continues; (2) if the cast differs, a `SpecifierCastMismatch` error
carrying both spans and both types is emitted and matching continues with
`maybe_pairs = None` (in either mode); (3) if `arg` has no cast, an
un-type-checked `FormatValue` is recorded when still building and no error
is ever raised for that pair in either mode; (4) in the degraded mode a
matching cast is simply skipped; (5) once `maybe_pairs` is `None`, the
matcher can never again produce a successful interpolation (no further
successful pairs are recorded), while later cast mismatches are still
detected by (2). -/
theorem c1_matcher_step (src fmt : List Char) (fsp : Span) (specSt : SpecState)
    (argSt : ArgsState) (fuel : Nat) (spec : Specifier) (specSt' : SpecState)
    (arg : Arg) (argSt' : ArgsState)
    (h1 : specNext fmt specSt = some (spec, specSt'))
    (h2 : argsNext src argSt = (some arg, argSt')) :
    (∀ ps csp, arg.cast = some (spec.ctype, csp) →
       matchLoop src fmt fsp specSt argSt (some ps) (fuel+1) =
         matchLoop src fmt fsp specSt' argSt'
           (some (ps ++ [(specSt'.before,
             ⟨slice src arg.span.start arg.span.stop, true, spec⟩)])) fuel) ∧
    (∀ mp ct csp, arg.cast = some (ct, csp) → ct ≠ spec.ctype →
       matchLoop src fmt fsp specSt argSt mp (fuel+1) =
         ((matchLoop src fmt fsp specSt' argSt' none fuel).1,
          .specifierCastMismatch (specSt'.spanAt (fsp.start + 1)) spec.ctype csp ct ::
            (matchLoop src fmt fsp specSt' argSt' none fuel).2.1,
          (matchLoop src fmt fsp specSt' argSt' none fuel).2.2)) ∧
    (arg.cast = none →
       (∀ ps, matchLoop src fmt fsp specSt argSt (some ps) (fuel+1) =
          matchLoop src fmt fsp specSt' argSt'
            (some (ps ++ [(specSt'.before,
              ⟨slice src arg.span.start arg.span.stop, false, spec⟩)])) fuel) ∧
       matchLoop src fmt fsp specSt argSt none (fuel+1) =
         matchLoop src fmt fsp specSt' argSt' none fuel) ∧
    (∀ csp, arg.cast = some (spec.ctype, csp) →
       matchLoop src fmt fsp specSt argSt none (fuel+1) =
         matchLoop src fmt fsp specSt' argSt' none fuel) ∧
    (∀ fuel' sSt aSt, (matchLoop src fmt fsp sSt aSt none fuel').1 = none) := by
  refine ⟨?_, ?_, ?_, ?_, fun fuel' sSt aSt => matchLoop_none_res src fmt fsp fuel' sSt aSt⟩
  · intro ps csp h3
    simp [matchLoop, h1, h2, h3]
  · intro mp ct csp h3 h4
    rcases mp with _ | ps <;> simp [matchLoop, h1, h2, h3, h4]
  · intro h3
    constructor
    · intro ps
      simp [matchLoop, h1, h2, h3]
    · simp [matchLoop, h1, h2, h3]
  · intro csp h3
    simp [matchLoop, h1, h2, h3]

/-- C1 witness: the three step equations of `c1_matcher_step` instantiated
on `%d` with arguments `(int) x` (matching cast), `(float) x` (mismatched
cast) and `x` (no cast). -/
theorem c1_matcher_step_witness :
    matchLoop "(int) x)".data "%d".data ⟨7, 11⟩ (SpecState.new "%d".data)
        (ArgsState.new 0) (some []) 3 =
      matchLoop "(int) x)".data "%d".data ⟨7, 11⟩ ⟨2, [], [], ⟨0, 2⟩⟩
        ⟨8, false, 0, 7⟩ (some [([], ⟨"(int) x".data, true, ⟨[], .int⟩⟩)]) 2 ∧
    matchLoop "(float) x)".data "%d".data ⟨7, 11⟩ (SpecState.new "%d".data)
        (ArgsState.new 0) (some []) 3 =
      ((matchLoop "(float) x)".data "%d".data ⟨7, 11⟩ ⟨2, [], [], ⟨0, 2⟩⟩
          ⟨10, false, 0, 9⟩ none 2).1,
       .specifierCastMismatch ⟨8, 10⟩ .int ⟨0, 7⟩ .float ::
         (matchLoop "(float) x)".data "%d".data ⟨7, 11⟩ ⟨2, [], [], ⟨0, 2⟩⟩
           ⟨10, false, 0, 9⟩ none 2).2.1,
       (matchLoop "(float) x)".data "%d".data ⟨7, 11⟩ ⟨2, [], [], ⟨0, 2⟩⟩
         ⟨10, false, 0, 9⟩ none 2).2.2) ∧
    matchLoop "x)".data "%d".data ⟨7, 11⟩ (SpecState.new "%d".data)
        (ArgsState.new 0) (some []) 3 =
      matchLoop "x)".data "%d".data ⟨7, 11⟩ ⟨2, [], [], ⟨0, 2⟩⟩
        ⟨2, false, 0, 1⟩ (some [([], ⟨['x'], false, ⟨[], .int⟩⟩)]) 2 := by
  refine ⟨?_, ?_, ?_⟩
  · exact (c1_matcher_step "(int) x)".data "%d".data ⟨7, 11⟩ (SpecState.new "%d".data)
      (ArgsState.new 0) 2 ⟨[], .int⟩ ⟨2, [], [], ⟨0, 2⟩⟩
      ⟨some (.identifier ['x']), ⟨0, 7⟩, some (.int, ⟨0, 5⟩)⟩ ⟨8, false, 0, 7⟩
      rfl rfl).1 [] ⟨0, 5⟩ rfl
  · exact (c1_matcher_step "(float) x)".data "%d".data ⟨7, 11⟩ (SpecState.new "%d".data)
      (ArgsState.new 0) 2 ⟨[], .int⟩ ⟨2, [], [], ⟨0, 2⟩⟩
      ⟨some (.identifier ['x']), ⟨0, 9⟩, some (.float, ⟨0, 7⟩)⟩ ⟨10, false, 0, 9⟩
      rfl rfl).2.1 (some []) .float ⟨0, 7⟩ rfl (by decide)
  · exact ((c1_matcher_step "x)".data "%d".data ⟨7, 11⟩ (SpecState.new "%d".data)
      (ArgsState.new 0) 2 ⟨[], .int⟩ ⟨2, [], [], ⟨0, 2⟩⟩
      ⟨some (.identifier ['x']), ⟨0, 1⟩, none⟩ ⟨2, false, 0, 1⟩
      rfl rfl).2.2.1 rfl).1 []



/-- C8 counterexample: in the argument `x + (int) y`, the cast token occurs
after other content (the argument's span starts at offset 0 while the cast
token starts at offset 4), yet the splitter records `(int)` as the
argument's cast — refuting the claim that a cast is recorded only when a
recognized cast token occurs before any other content of the argument. -/
theorem c8_cast_not_leading :
    argsNext "x + (int) y)".data (ArgsState.new 0) =
      (some ⟨none, ⟨0, 11⟩, some (.int, ⟨4, 9⟩)⟩, ⟨12, false, 0, 11⟩) ∧
    (0 : Nat) < 4 := ⟨rfl, by decide⟩

/-- C8 amended, part (a): cast preservation -/
theorem c8_cast_preserved (src : List Char) (c : CType × Span) :
    ∀ fuel span opened single count st arg st',
      argLoop src (some c) span opened single count st fuel = (some arg, st') →
      arg.cast = some c := by
  intro fuel
  induction fuel with
  | zero =>
    intro span opened single count st arg st' h
    simp [argLoop] at h
  | succ n ih =>
    intro span opened single count st arg st' h
    simp only [argLoop] at h
    rcases h1 : argNextTok src st.pos with _ | ⟨tok, sp, pos'⟩ <;> simp only [h1] at h
    · simp at h
    · cases tok
      case comma =>
        rcases opened with _ | m
        · rcases span with _ | s
          · simp at h
          · simp only [Option.map_some', Prod.mk.injEq, Option.some.injEq] at h
            rw [← h.1]
        · exact ih _ _ _ _ _ _ _ h
      case rparen =>
        rcases opened with _ | m
        · rcases span with _ | s
          · simp at h
          · simp only [Option.map_some', Prod.mk.injEq, Option.some.injEq] at h
            rw [← h.1]
        · exact ih _ _ _ _ _ _ _ h
      case typeCast t =>
        simp only [Option.isNone_some] at h
        rw [if_neg (by simp)] at h
        exact ih _ _ _ _ _ _ _ h
      all_goals exact ih _ _ _ _ _ _ _ h

/-- C8 (amended): the first `TypeCast` token scanned in an argument is
recorded as its cast wherever it occurs (the guard is only `cast.is_none()`),
at most one cast is recorded per argument (once recorded it is never
overwritten), and any later cast token in the same argument is kept as
ordinary argument content (it goes to the catch-all arm, counting towards
`single_token`). -/
theorem c8_first_cast :
    (∀ (src : List Char) (c : CType × Span) fuel span opened single count st arg st',
       argLoop src (some c) span opened single count st fuel = (some arg, st') →
       arg.cast = some c) ∧
    (∀ (src : List Char) (t : CType) (sp : Span) (pos' : Nat) span opened single count
       (st : ArgsState) fuel,
       argNextTok src st.pos = some (.typeCast t, sp, pos') →
       argLoop src none span opened single count st (fuel+1) =
         argLoop src (some (t, sp)) (some (unionSpan span sp)) opened single count
           { st with pos := pos', stop := sp.stop } fuel) ∧
    (∀ (src : List Char) (c : CType × Span) (t : CType) (sp : Span) (pos' : Nat)
       span opened single count (st : ArgsState) fuel,
       argNextTok src st.pos = some (.typeCast t, sp, pos') →
       argLoop src (some c) span opened single count st (fuel+1) =
         argLoop src (some c) (some (unionSpan span sp)) opened
           (if count == 0 then some (.typeCast t) else none) (count+1)
           { st with pos := pos', stop := sp.stop } fuel) := by
  refine ⟨c8_cast_preserved, ?_, ?_⟩
  · intro src t sp pos' span opened single count st fuel h
    simp [argLoop, h]
  · intro src c t sp pos' span opened single count st fuel h
    simp [argLoop, h]

/-- C8 witness: the cast-preservation, first-cast-recording and
later-cast-as-content equations of `c8_first_cast` instantiated on concrete
argument text. -/
theorem c8_first_cast_witness :
    (⟨some (.identifier ['x']), ⟨0, 1⟩, some ((CType.int, ⟨0, 0⟩) : CType × Span)⟩ : Arg).cast =
      some (CType.int, ⟨0, 0⟩) ∧
    argLoop "(int) x)".data none none 0 none 0 (ArgsState.new 0) 4 =
      argLoop "(int) x)".data (some (.int, ⟨0, 5⟩)) (some (unionSpan none ⟨0, 5⟩)) 0 none 0
        { ArgsState.new 0 with pos := 5, stop := 5 } 3 ∧
    argLoop "(int) x)".data (some (.float, ⟨9, 9⟩)) none 0 none 0 (ArgsState.new 0) 4 =
      argLoop "(int) x)".data (some (.float, ⟨9, 9⟩)) (some (unionSpan none ⟨0, 5⟩)) 0
        (if (0 : Nat) == 0 then some (.typeCast .int) else none) 1
        { ArgsState.new 0 with pos := 5, stop := 5 } 3 :=
  ⟨c8_first_cast.1 "x)".data (CType.int, ⟨0, 0⟩) 3 none 0 none 0 (ArgsState.new 0)
     ⟨some (.identifier ['x']), ⟨0, 1⟩, some (.int, ⟨0, 0⟩)⟩ ⟨2, false, 0, 1⟩ rfl,
   c8_first_cast.2.1 "(int) x)".data .int ⟨0, 5⟩ 5 none 0 none 0 (ArgsState.new 0) 3 rfl,
   c8_first_cast.2.2 "(int) x)".data (.float, ⟨9, 9⟩) .int ⟨0, 5⟩ 5 none 0 none 0
     (ArgsState.new 0) 3 rfl⟩

theorem argsStream_cons {src : List Char} {st : ArgsState} {a : Arg} {st' : ArgsState}
    (h : argsNext src st = (some a, st')) (n : Nat) :
    argsStream src st (n+1) = a :: argsStream src st' n := by
  simp [argsStream, h]

theorem typecastArgs_all_tc (ps : List (List Char × FormatValue))
    (h : ∀ p ∈ ps, p.2.type_checked = true) :
    (ps.map typecastArgPair).flatten =
      (ps.map (fun p => ", ".data ++ p.2.arg)).flatten := by
  induction ps with
  | nil => rfl
  | cons p t ih =>
    simp only [List.map_cons, List.flatten_cons]
    rw [typecastArgPair, if_pos (h p (by simp)), ih (fun q hq => h q (by simp [hq]))]

/-- C5 counterexample: the typecast rendering does not reconstruct the
original format string exactly: `printf("%i", (int) x);` — a valid call in
which every specifier's argument carries a matching cast — renders as
`printf("%d", (int) x);`, with the specifier letter canonicalized from `i`
to `d`, which differs from the original text. -/
theorem c5_letter_canonicalized :
    (parse "printf(\"%i\", (int) x);".data).map display_typecast =
      .ok "printf(\"%d\", (int) x);".data ∧
    ("printf(\"%d\", (int) x);".data ≠ "printf(\"%i\", (int) x);".data) :=
  ⟨rfl, by decide⟩

/-- C5 (amended): the typecast rendering re-emits each specifier as `%` +
option text + the canonical letter of its resolved type and passes every
type-checked argument through unmodified.  For every matcher run in which
every argument yielded by the splitter carries a cast and which succeeds
(so every cast matched), every recorded `FormatValue` has `type_checked =
true`, and the typecast-rendered argument section equals the plain `", " ++
arg` concatenation of the original argument texts (cast round-trip);
concretely, `printf("%d", (int) x);` renders back to itself byte for
byte. -/
theorem c5_typecast_roundtrip :
    (∀ (src fmt : List Char) (fsp : Span) (fuel : Nat) specSt argSt acc interp es stf,
       (∀ a ∈ argsStream src argSt fuel, a.cast.isSome) →
       (∀ p ∈ acc, p.2.type_checked = true) →
       matchLoop src fmt fsp specSt argSt (some acc) fuel = (some interp, es, stf) →
       (∀ p ∈ interp.pairs, p.2.type_checked = true) ∧
       (interp.pairs.map typecastArgPair).flatten =
         (interp.pairs.map (fun p => ", ".data ++ p.2.arg)).flatten) ∧
    (parse "printf(\"%d\", (int) x);".data).map display_typecast =
      .ok "printf(\"%d\", (int) x);".data := by
  refine ⟨?_, rfl⟩
  intro src fmt fsp fuel
  induction fuel with
  | zero =>
    intro specSt argSt acc interp es stf hc hacc h
    simp only [matchLoop, Option.map_some', Prod.mk.injEq, Option.some.injEq] at h
    rw [← h.1]
    exact ⟨hacc, typecastArgs_all_tc acc hacc⟩
  | succ n ih =>
    intro specSt argSt acc interp es stf hc hacc h
    simp only [matchLoop] at h
    rcases h1 : specNext fmt specSt with _ | ⟨spec, specSt'⟩ <;>
      rcases h2 : argsNext src argSt with ⟨_ | arg, argSt'⟩ <;>
      simp only [h1, h2] at h
    · simp only [Option.map_some', Prod.mk.injEq, Option.some.injEq] at h
      rw [← h.1]
      exact ⟨hacc, typecastArgs_all_tc acc hacc⟩
    · simp only [Prod.mk.injEq] at h
      exact absurd h.1 (by simp)
    · simp only [Prod.mk.injEq] at h
      exact absurd h.1 (by simp)
    · have hmem : arg ∈ argsStream src argSt (n+1) := by
        rw [argsStream_cons h2]; exact List.mem_cons_self _ _
      have hcast := hc arg hmem
      rcases h3 : arg.cast with _ | ⟨ct, csp⟩
      · rw [h3] at hcast; simp at hcast
      · simp only [h3] at h
        have hc' : ∀ a ∈ argsStream src argSt' n, a.cast.isSome := fun a ha =>
          hc a (by rw [argsStream_cons h2]; exact List.mem_cons_of_mem _ ha)
        by_cases h4 : ct = spec.ctype
        · rw [if_pos h4] at h
          refine ih specSt' argSt' _ interp es stf hc' ?_ h
          intro p hp
          rcases List.mem_append.mp hp with hp1 | hp2
          · exact hacc p hp1
          · simp at hp2
            rw [hp2]
        · rw [if_neg h4] at h
          simp only [Prod.mk.injEq] at h
          rw [matchLoop_none_res src fmt fsp n specSt' argSt'] at h
          exact absurd h.1 (by simp)

/-- C5 witness: `c5_typecast_roundtrip` applied to the matcher run of
`printf("%d", (int) x)`: the resulting single `FormatValue` is type-checked
and its rendered argument section is the unmodified argument text. -/
theorem c5_typecast_roundtrip_witness :
    (∀ p ∈ ([([], ⟨"(int) x".data, true, ⟨[], CType.int⟩⟩)] :
        List (List Char × FormatValue)), p.2.type_checked = true) ∧
    ((([([], ⟨"(int) x".data, true, ⟨[], CType.int⟩⟩)] :
        List (List Char × FormatValue)).map typecastArgPair).flatten =
      (([([], ⟨"(int) x".data, true, ⟨[], CType.int⟩⟩)] :
        List (List Char × FormatValue)).map (fun p => ", ".data ++ p.2.arg)).flatten) := by
  exact c5_typecast_roundtrip.1 "(int) x)".data "%d".data ⟨7, 11⟩ 3
    (SpecState.new "%d".data) (ArgsState.new 0) []
    ⟨[([], ⟨"(int) x".data, true, ⟨[], .int⟩⟩)], []⟩
    [] ⟨8, false, 0, 7⟩ (by decide) (by simp) rfl

/-- C3: for every source text, parse returns either a complete IR or a
non-empty error list; it returns `Ok` exactly when no call site contributed
an error (every call site validated); and the error accumulation and the
final chunk span are independent of the `pairs` accumulator, so a failing
call site does not stop the whole-file scan — errors from all later call
sites are still accumulated into the single returned list. -/
theorem c3_parse_all_or_nothing :
    (∀ (src : List Char) (es : List Error), parse src = .error es → es ≠ []) ∧
    (∀ src : List Char, (∃ ir, parse src = .ok ir) ↔
       (parseLoop src (src.length + 1) 0 none (some [])).2.1 = []) ∧
    (∀ (src : List Char) (fuel pos : Nat) (span : Option Span) mp mp',
       (parseLoop src fuel pos span mp).2 = (parseLoop src fuel pos span mp').2) := by
  refine ⟨?_, ?_, fun src fuel pos span mp mp' => parseLoop_errs_indep src fuel pos span mp mp'⟩
  · intro src es h
    rw [parse] at h
    rcases h5 : (parseLoop src (src.length + 1) 0 none (some [])).1 with _ | ps
    · rw [h5] at h
      simp only [Except.error.injEq] at h
      have := parseLoop_nones_errs src (src.length + 1) 0 none [] h5
      exact h ▸ this
    · rw [h5] at h
      simp at h
  · intro src
    constructor
    · rintro ⟨ir, hir⟩
      rw [parse] at hir
      rcases h5 : (parseLoop src (src.length + 1) 0 none (some [])).1 with _ | ps
      · rw [h5] at hir; simp at hir
      · exact parseLoop_some_errs src (src.length + 1) 0 none (some []) ps _ _ (by rw [← h5])
    · intro he
      rcases h5 : (parseLoop src (src.length + 1) 0 none (some [])).1 with _ | ps
      · exact absurd he (parseLoop_nones_errs src (src.length + 1) 0 none [] h5)
      · refine ⟨⟨ps, ((parseLoop src (src.length + 1) 0 none (some [])).2.2.map
          fun s => slice src s.start s.stop).getD []⟩, ?_⟩
        rw [parse, h5]

/-- C3 witness: `c3_parse_all_or_nothing` applied to `printf();` (an error
list that is provably non-empty) and to `int x;` (no errors collected, hence
an `Ok` IR exists). -/
theorem c3_parse_all_or_nothing_witness :
    ([Error.missingFunctionArgs ⟨7, 7⟩] ≠ ([] : List Error)) ∧
    (∃ ir, parse "int x;".data = .ok ir) :=
  ⟨c3_parse_all_or_nothing.1 "printf();".data [.missingFunctionArgs ⟨7, 7⟩] rfl,
   (c3_parse_all_or_nothing.2.1 "int x;".data).mpr rfl⟩

theorem scanWhile_le (src : List Char) (p : Char → Bool) :
    ∀ fuel pos, pos ≤ scanWhile src p pos fuel := by
  intro fuel
  induction fuel with
  | zero => intro pos; simp [scanWhile]
  | succ n ih =>
    intro pos
    simp only [scanWhile]
    rcases h : src.get? pos with _ | c
    · exact le_refl _
    · by_cases hp : p c
      · simp only [hp, if_true]
        exact le_trans (Nat.le_succ pos) (ih (pos+1))
      · simp [hp]

theorem scanWhile_gt (src : List Char) (p : Char → Bool) (fuel pos : Nat) (c : Char)
    (h : src.get? pos = some c) (hp : p c) :
    pos < scanWhile src p pos (fuel + 1) := by
  simp only [scanWhile, h, hp, if_true]
  exact lt_of_lt_of_le (Nat.lt_succ_self pos) (scanWhile_le src p fuel (pos+1))

theorem scanWhile_ws (src : List Char) (p : Char → Bool) :
    ∀ fuel pos k c, pos ≤ k → k < scanWhile src p pos fuel →
      src.get? k = some c → p c := by
  intro fuel
  induction fuel with
  | zero =>
    intro pos k c h1 h2
    simp only [scanWhile] at h2
    omega
  | succ n ih =>
    intro pos k c h1 h2 h3
    simp only [scanWhile] at h2
    rcases h : src.get? pos with _ | c0 <;> simp only [h] at h2
    · omega
    · by_cases hp : p c0
      · rw [if_pos hp] at h2
        rcases Nat.eq_or_lt_of_le h1 with rfl | hlt
        · rw [h] at h3
          cases h3
          exact hp
        · exact ih (pos+1) k c hlt h2 h3
      · rw [if_neg hp] at h2
        omega

theorem findStarSlash_ge (src : List Char) :
    ∀ fuel pos e, findStarSlash src pos fuel = some e → pos < e := by
  intro fuel
  induction fuel with
  | zero => intro pos e h; simp [findStarSlash] at h
  | succ n ih =>
    intro pos e h
    simp only [findStarSlash] at h
    rcases h1 : src.get? pos with _ | c <;> simp only [h1] at h
    · simp at h
    · by_cases h2 : c == '*' && src.get? (pos+1) == some '/'
      · rw [if_pos h2] at h
        cases h
        omega
      · rw [if_neg h2] at h
        have := ih (pos+1) e h
        omega

theorem escLen_gt (src : List Char) (pos e : Nat) (h : escLen src pos = some e) :
    pos < e := by
  simp only [escLen] at h
  rcases h1 : src.get? pos with _ | c <;> simp only [h1] at h
  · simp at h
  · by_cases h2 : escChars.contains c
    · rw [if_pos h2] at h
      cases h
      omega
    · rw [if_neg h2] at h
      by_cases h3 : isOctal c
      · rw [if_pos h3] at h
        cases h
        rcases hl : src.length with _ | m
        · rw [List.get?_eq_none.mpr (by omega)] at h1
          cases h1
        · have := scanWhile_gt src isOctal (src.length) pos c h1 h3
          simp only [scanW]
          omega
      · rw [if_neg h3] at h
        by_cases h4 : c == 'x' || c == 'u'
        · rw [if_pos h4] at h
          by_cases h5 : pos + 1 < scanW src isHex (pos+1)
          · rw [if_pos h5] at h
            cases h
            omega
          · rw [if_neg h5] at h
            cases h
        · rw [if_neg h4] at h
          by_cases h6 : c == '\r'
          · rw [if_pos h6] at h
            rcases h7 : src.get? (pos+1) with _ | c2 <;> simp only [h7] at h
            · cases h
            · rcases hc2 : c2 == '\n' with _ | _
              · have : c2 ≠ '\n' := by
                  intro hx
                  rw [hx] at hc2
                  simp at hc2
                split at h
                · cases h; omega
                · cases h
              · split at h
                · cases h; omega
                · cases h
          · rw [if_neg h6] at h
            by_cases h8 : c == '\n'
            · rw [if_pos h8] at h
              cases h
              omega
            · rw [if_neg h8] at h
              cases h

theorem strBody_gt (src : List Char) :
    ∀ fuel pos e, strBody src pos fuel = some e → pos < e := by
  intro fuel
  induction fuel with
  | zero => intro pos e h; simp [strBody] at h
  | succ n ih =>
    intro pos e h
    simp only [strBody] at h
    rcases h1 : src.get? pos with _ | c <;> simp only [h1] at h
    · simp at h
    · by_cases h2 : c == '"'
      · rw [if_pos h2] at h
        cases h
        omega
      · rw [if_neg h2] at h
        by_cases h3 : c == '\n'
        · rw [if_pos h3] at h; cases h
        · rw [if_neg h3] at h
          by_cases h4 : c == '\\'
          · rw [if_pos h4] at h
            rcases h5 : escLen src (pos+1) with _ | p' <;> simp only [h5] at h
            · cases h
            · have e1 := escLen_gt src (pos+1) p' h5
              have e2 := ih p' e h
              omega
          · rw [if_neg h4] at h
            have := ih (pos+1) e h
            omega

theorem strUnit_gt (src : List Char) (pos e : Nat) (h : strUnit src pos = some e) :
    pos < e := by
  simp only [strUnit] at h
  rcases h1 : src.get? pos with _ | c <;> simp only [h1] at h
  · simp at h
  · by_cases h2 : c == '"'
    · rw [if_pos h2] at h
      have := strBody_gt src (src.length + 1) (pos+1) e h
      omega
    · rw [if_neg h2] at h
      by_cases h3 : c == 'u' && src.get? (pos+1) == some '8' && src.get? (pos+2) == some '"'
      · rw [if_pos h3] at h
        have := strBody_gt src (src.length + 1) (pos+3) e h
        omega
      · rw [if_neg h3] at h
        by_cases h4 : (c == 'u' || c == 'U' || c == 'L') && src.get? (pos+1) == some '"'
        · rw [if_pos h4] at h
          have := strBody_gt src (src.length + 1) (pos+2) e h
          omega
        · rw [if_neg h4] at h
          cases h

theorem strRunAux_le (src : List Char) :
    ∀ fuel pos, pos ≤ strRunAux src pos fuel := by
  intro fuel
  induction fuel with
  | zero => intro pos; simp [strRunAux]
  | succ n ih =>
    intro pos
    simp only [strRunAux]
    rcases h1 : strUnit src (scanW src isWsChar pos) with _ | e <;> simp only [h1]
    · exact scanWhile_le src isWsChar (src.length + 1) pos
    · have e1 := scanWhile_le src isWsChar (src.length + 1) pos
      have e2 := strUnit_gt src _ _ h1
      have e3 := ih e
      simp only [scanW] at e2
      omega

theorem strMatch_gt (src : List Char) (pos e : Nat) (h : strMatch src pos = some e) :
    pos < e := by
  simp only [strMatch] at h
  rcases h1 : strUnit src pos with _ | e0 <;> simp only [h1] at h
  · simp at h
  · simp only [Option.map_some', Option.some.injEq] at h
    have := strUnit_gt src pos e0 h1
    have := strRunAux_le src (src.length + 1) e0
    omega



theorem srcNextTok_none_ws (src : List Char) (pos : Nat)
    (h : srcNextTok src pos = none) :
    ∀ k c, pos ≤ k → src.get? k = some c → isWsChar c := by
  intro k c hk hc
  simp only [srcNextTok] at h
  rcases h1 : src.get? (scanW src isWsChar pos) with _ | c0 <;> simp only [h1] at h
  · by_cases h2 : k < scanW src isWsChar pos
    · exact scanWhile_ws src isWsChar (src.length + 1) pos k c hk h2 hc
    · exfalso
      have hlen : src.length ≤ scanW src isWsChar pos := List.get?_eq_none.mp h1
      rw [List.get?_eq_none.mpr (le_trans hlen (le_of_not_lt h2))] at hc
      cases hc
  · exfalso
    by_cases g1 : c0 == '/' && src.get? (scanW src isWsChar pos + 1) == some '/'
    · rw [if_pos g1] at h; cases h
    · rw [if_neg g1] at h
      by_cases g2 : c0 == '/' && src.get? (scanW src isWsChar pos + 1) == some '*'
      · rw [if_pos g2] at h
        rcases g3 : findStarSlash src (scanW src isWsChar pos + 2) (src.length + 1)
          with _ | e <;> simp only [g3] at h <;> cases h
      · rw [if_neg g2] at h
        by_cases g4 : c0 == '/'
        · rw [if_pos g4] at h; cases h
        · rw [if_neg g4] at h
          rcases g5 : strMatch src (scanW src isWsChar pos) with _ | e <;>
            simp only [g5] at h
          · by_cases g6 : c0 == '('
            · rw [if_pos g6] at h; cases h
            · rw [if_neg g6] at h
              by_cases g7 : c0 == ')'
              · rw [if_pos g7] at h; cases h
              · rw [if_neg g7] at h
                by_cases g8 : matchLit "snprintf" src (scanW src isWsChar pos)
                · rw [if_pos g8] at h; cases h
                · rw [if_neg g8] at h
                  by_cases g9 : matchLit "sprintf" src (scanW src isWsChar pos)
                  · rw [if_pos g9] at h; cases h
                  · rw [if_neg g9] at h
                    by_cases g10 : matchLit "printf" src (scanW src isWsChar pos)
                    · rw [if_pos g10] at h; cases h
                    · rw [if_neg g10] at h; cases h
          · cases h

theorem srcNextTok_some_facts (src : List Char) (pos : Nat) (t : SourceTok) (sp : Span)
    (pos' : Nat) (h : srcNextTok src pos = some (t, sp, pos')) :
    pos ≤ sp.start ∧ sp.start < sp.stop ∧ pos' = sp.stop ∧
      (∀ k c, pos ≤ k → k < sp.start → src.get? k = some c → isWsChar c) := by
  have hle : pos ≤ scanW src isWsChar pos := scanWhile_le src isWsChar (src.length + 1) pos
  have hws : ∀ k c, pos ≤ k → k < scanW src isWsChar pos → src.get? k = some c → isWsChar c :=
    fun k c a b => scanWhile_ws src isWsChar (src.length + 1) pos k c a b
  simp only [srcNextTok] at h
  rcases h1 : src.get? (scanW src isWsChar pos) with _ | c0 <;> simp only [h1] at h
  · cases h
  · by_cases g1 : c0 == '/' && src.get? (scanW src isWsChar pos + 1) == some '/'
    · rw [if_pos g1] at h
      cases h
      have := scanWhile_le src (fun ch => !(ch == '\r' || ch == '\n')) (src.length + 1)
        (scanW src isWsChar pos + 2)
      refine ⟨hle, ?_, rfl, hws⟩
      dsimp only
      simp only [scanW] at this ⊢
      omega
    · rw [if_neg g1] at h
      by_cases g2 : c0 == '/' && src.get? (scanW src isWsChar pos + 1) == some '*'
      · rw [if_pos g2] at h
        rcases g3 : findStarSlash src (scanW src isWsChar pos + 2) (src.length + 1)
          with _ | e
        · simp only [g3] at h
          cases h
          exact ⟨hle, by dsimp only; omega, rfl, hws⟩
        · simp only [g3] at h
          cases h
          have := findStarSlash_ge src (src.length + 1) (scanW src isWsChar pos + 2) _ g3
          exact ⟨hle, by dsimp only; omega, rfl, hws⟩
      · rw [if_neg g2] at h
        by_cases g4 : c0 == '/'
        · rw [if_pos g4] at h
          cases h
          exact ⟨hle, by dsimp only; omega, rfl, hws⟩
        · rw [if_neg g4] at h
          rcases g5 : strMatch src (scanW src isWsChar pos) with _ | e <;>
            simp only [g5] at h
          · by_cases g6 : c0 == '('
            · rw [if_pos g6] at h
              cases h
              exact ⟨hle, by dsimp only; omega, rfl, hws⟩
            · rw [if_neg g6] at h
              by_cases g7 : c0 == ')'
              · rw [if_pos g7] at h
                cases h
                exact ⟨hle, by dsimp only; omega, rfl, hws⟩
              · rw [if_neg g7] at h
                by_cases g8 : matchLit "snprintf" src (scanW src isWsChar pos)
                · rw [if_pos g8] at h
                  cases h
                  exact ⟨hle, by dsimp only; omega, rfl, hws⟩
                · rw [if_neg g8] at h
                  by_cases g9 : matchLit "sprintf" src (scanW src isWsChar pos)
                  · rw [if_pos g9] at h
                    cases h
                    exact ⟨hle, by dsimp only; omega, rfl, hws⟩
                  · rw [if_neg g9] at h
                    by_cases g10 : matchLit "printf" src (scanW src isWsChar pos)
                    · rw [if_pos g10] at h
                      cases h
                      exact ⟨hle, by dsimp only; omega, rfl, hws⟩
                    · rw [if_neg g10] at h
                      cases h
                      exact ⟨hle, by dsimp only; omega, rfl, hws⟩
          · cases h
            have := strMatch_gt src (scanW src isWsChar pos) _ g5
            exact ⟨hle, by dsimp only; omega, rfl, hws⟩



theorem srcTokensFrom_cons {src : List Char} {pos : Nat} {t : SourceTok} {sp : Span}
    {pos' : Nat} (h : srcNextTok src pos = some (t, sp, pos')) (n : Nat) :
    srcTokensFrom src pos (n+1) = (t, sp) :: srcTokensFrom src pos' n := by
  simp [srcTokensFrom, h]

theorem parseLoop_no_calls (src : List Char)
    (htop : ∀ t sp, (t, sp) ∈ srcTokens src →
      t ≠ SourceTok.printf ∧ t ≠ SourceTok.sprintf ∧ t ≠ SourceTok.snprintf) :
    ∀ fuel pos span,
      src.length + 1 ≤ fuel + pos →
      (∀ t sp, (t, sp) ∈ srcTokensFrom src pos fuel → (t, sp) ∈ srcTokens src) →
      (match span with
       | none => ∀ k c, k < pos → src.get? k = some c → isWsChar c
       | some s => s.stop = pos ∧ s.start ≤ s.stop ∧
           ∀ k c, k < s.start → src.get? k = some c → isWsChar c) →
      ∃ out, parseLoop src fuel pos span (some []) = (some [], [], out) ∧
        ((out = none ∧ ∀ k c, src.get? k = some c → isWsChar c) ∨
         (∃ i j, out = some ⟨i, j⟩ ∧ i ≤ j ∧
           (∀ k c, k < i → src.get? k = some c → isWsChar c) ∧
           (∀ k c, j ≤ k → src.get? k = some c → isWsChar c))) := by
  intro fuel
  induction fuel with
  | zero =>
    intro pos span hfuel hchain hspan
    refine ⟨span, by simp [parseLoop], ?_⟩
    rcases span with _ | s
    · left
      refine ⟨rfl, fun k c hc => ?_⟩
      have hk : k < src.length := (List.get?_eq_some.mp hc).1
      exact hspan k c (by omega) hc
    · right
      refine ⟨s.start, s.stop, rfl, hspan.2.1, hspan.2.2, fun k c hk hc => ?_⟩
      have hklen : k < src.length := (List.get?_eq_some.mp hc).1
      have := hspan.1
      omega
  | succ n ih =>
    intro pos span hfuel hchain hspan
    rcases htok : srcNextTok src pos with _ | ⟨t, sp, pos'⟩
    · refine ⟨span, by simp [parseLoop, htok], ?_⟩
      have hws := srcNextTok_none_ws src pos htok
      rcases span with _ | s
      · left
        refine ⟨rfl, fun k c hc => ?_⟩
        by_cases hk : k < pos
        · exact hspan k c hk hc
        · exact hws k c (by omega) hc
      · right
        refine ⟨s.start, s.stop, rfl, hspan.2.1, hspan.2.2, fun k c hk hc => ?_⟩
        have h1 := hspan.1
        exact hws k c (by omega) hc
    · have hmem : (t, sp) ∈ srcTokens src := by
        apply hchain
        rw [srcTokensFrom_cons htok]
        exact List.mem_cons_self _ _
      have hun := htop t sp hmem
      have hfacts := srcNextTok_some_facts src pos t sp pos' htok
      have hchain' : ∀ t' sp', (t', sp') ∈ srcTokensFrom src pos' n →
          (t', sp') ∈ srcTokens src := by
        intro t' sp' hm
        apply hchain
        rw [srcTokensFrom_cons htok]
        exact List.mem_cons_of_mem _ hm
      have hfuel' : src.length + 1 ≤ n + pos' := by
        have := hfacts.1
        have := hfacts.2.1
        have := hfacts.2.2.1
        omega
      have hspan' :
          (match (some (unionSpan span sp) : Option Span) with
           | none => ∀ k c, k < pos' → src.get? k = some c → isWsChar c
           | some s => s.stop = pos' ∧ s.start ≤ s.stop ∧
               ∀ k c, k < s.start → src.get? k = some c → isWsChar c) := by
        rcases span with _ | s
        · simp only [unionSpan]
          refine ⟨hfacts.2.2.1.symm, by have := hfacts.2.1; omega, fun k c hk hc => ?_⟩
          by_cases hk2 : k < pos
          · exact hspan k c hk2 hc
          · exact hfacts.2.2.2 k c (by omega) hk hc
        · simp only [unionSpan]
          have h1 := hspan.1
          have h2 := hspan.2.1
          have hf1 := hfacts.1
          have hf2 := hfacts.2.1
          have hf3 := hfacts.2.2.1
          exact ⟨by omega, by omega,
            fun k c hk hc => hspan.2.2 k c hk hc⟩
      cases t
      case printf => exact absurd rfl hun.1
      case sprintf => exact absurd rfl hun.2.1
      case snprintf => exact absurd rfl hun.2.2
      all_goals simp only [parseLoop, htok]
      all_goals exact ih pos' (some (unionSpan span sp)) hfuel' hchain' hspan'



/-- C7 counterexample: the source `" x"` contains zero tracked call sites
and parses to a chunk-only IR, but both renderers reproduce `"x"`, not the
original `" x"` — the leading whitespace is dropped, so rendering is not
byte-for-byte identical. -/
theorem c7_whitespace_dropped :
    parse " x".data = .ok ⟨[], "x".data⟩ ∧
    display_typecast ⟨[], "x".data⟩ = "x".data ∧
    display_optimize ⟨[], "x".data⟩ = "x".data ∧
    "x".data ≠ " x".data :=
  ⟨rfl, rfl, rfl, by decide⟩

/-- C7 (amended): for every source containing no printf/sprintf/snprintf
token, parse succeeds with a chunk-only IR (no pairs), and both renderers
reproduce the slice of the source from the start of the first source token
to the end of the last; every character before that slice and every
character after it is whitespace (leading and trailing whitespace is
dropped; the interior is reproduced exactly). -/
theorem c7_no_calls_render (src : List Char)
    (htr : ∀ x ∈ srcTokens src,
      x.1 ≠ SourceTok.printf ∧ x.1 ≠ SourceTok.sprintf ∧ x.1 ≠ SourceTok.snprintf) :
    ∃ last, parse src = .ok ⟨[], last⟩ ∧
      display_optimize ⟨[], last⟩ = last ∧ display_typecast ⟨[], last⟩ = last ∧
      ∃ i j, i ≤ j ∧ last = slice src i j ∧
        (∀ k c, k < i → src.get? k = some c → isWsChar c) ∧
        (∀ k c, j ≤ k → src.get? k = some c → isWsChar c) := by
  obtain ⟨out, hrun, hout⟩ := parseLoop_no_calls src (fun t sp h => htr (t, sp) h)
    (src.length + 1) 0 none (by omega) (fun t sp h => h)
    (fun k c hk _ => absurd hk (Nat.not_lt_zero k))
  refine ⟨(out.map fun s => slice src s.start s.stop).getD [], ?_,
    by simp [display_optimize, renderIR], by simp [display_typecast, renderIR], ?_⟩
  · simp only [parse, hrun]
  · rcases hout with ⟨rfl, hws⟩ | ⟨i, j, rfl, hij, hws1, hws2⟩
    · exact ⟨0, 0, le_refl 0, by simp [slice],
        fun k c hk => absurd hk (by omega), fun k c _ => hws k c⟩
    · exact ⟨i, j, hij, by simp, hws1, hws2⟩

/-- C7 witness: `c7_no_calls_render` applied to the concrete source
`int x;`, whose token stream provably contains no tracked names. -/
theorem c7_no_calls_render_witness :
    ∃ last, parse "int x;".data = .ok ⟨[], last⟩ ∧
      display_optimize ⟨[], last⟩ = last ∧ display_typecast ⟨[], last⟩ = last ∧
      ∃ i j, i ≤ j ∧ last = slice "int x;".data i j ∧
        (∀ k c, k < i → "int x;".data.get? k = some c → isWsChar c) ∧
        (∀ k c, j ≤ k → "int x;".data.get? k = some c → isWsChar c) :=
  c7_no_calls_render "int x;".data (by decide)

end SafePrintf
